import Mathlib

/-!
# Zero-of-Functions (ZOF) solver: a shallow embedding

This file embeds the six root-finding routines of `ZOF_CLI.py`
(`bisection`, `regula_falsi`, `secant`, `newton_raphson`, `fixed_point`,
`modified_secant`) and the six web wrappers of `app.py` as executable Lean
functions over exact rational arithmetic (`ℚ` in place of Python floats),
and proves the behavioural properties claimed of them.

Conventions of the embedding:

* Python's bounded `for i in range(1, max_iter+1)` loops become structural
  recursion on a `fuel : ℕ` argument, with the iteration counter `i`
  carried explicitly.
* A Python `raise ValueError(...)` becomes `Except.error e` for the
  matching constructor of `MethodError`; a `raise` in Python discards the
  local `iters` list, and correspondingly `Except.error` carries no trace.
* The Python locals that survive the loop and are read by the final
  `return` statement (`x`/`x2` and `err`) are carried as explicit loop
  parameters.  Their initial values only surface when `max_iter = 0`, in
  which case the Python code for `regula_falsi`, `secant`,
  `newton_raphson`, `fixed_point` and `modified_secant` would crash with
  an unbound local at the `return`; every theorem below that depends on
  those returns assumes `0 < max_iter`, so the placeholder initial values
  (`0`) are never relied upon.
* `iters.append(tuple)` becomes `iters ++ [entry]` on an accumulator list,
  exactly as in the source.
-/

namespace ZOF

/-- The error taxonomy of the solver: `ValueError` messages of `ZOF_CLI.py`
classified as in the spec (§7).  `evalError` stands for the
`EvaluationError` raised by the expression evaluator `make_f` and
propagated unchanged through a method. -/
inductive MethodError where
  | invalidBracket
  | zeroDenominator
  | zeroDerivative
  | evalError
deriving DecidableEq, Repr

/-- One row of the bisection iteration table:
`iters.append((i, a, b, c, fc, err))` in `ZOF_CLI.py` line 42. -/
structure BisectEntry where
  i : ℕ
  a : ℚ
  b : ℚ
  c : ℚ
  fc : ℚ
  err : ℚ
deriving DecidableEq, Repr

/-- One row of the regula-falsi iteration table:
`iters.append((i, a, b, x, fx, err))` in `ZOF_CLI.py` line 62. -/
structure RegulaEntry where
  i : ℕ
  a : ℚ
  b : ℚ
  x : ℚ
  fx : ℚ
  err : ℚ
deriving DecidableEq, Repr

/-- One row of the secant iteration table:
`iters.append((i, x0, x1, x2, f(x2), err))` in `ZOF_CLI.py` line 81. -/
structure SecantEntry where
  i : ℕ
  x0 : ℚ
  x1 : ℚ
  x2 : ℚ
  fx2 : ℚ
  err : ℚ
deriving DecidableEq, Repr

/-- One row of the Newton-Raphson iteration table:
`iters.append((i, x, fx, dfx, x_new, err))` in `ZOF_CLI.py` line 98. -/
structure NewtonEntry where
  i : ℕ
  x : ℚ
  fx : ℚ
  dfx : ℚ
  x_new : ℚ
  err : ℚ
deriving DecidableEq, Repr

/-- One row of the fixed-point iteration table:
`iters.append((i, x, x_new, err))` in `ZOF_CLI.py` line 111. -/
structure FixedEntry where
  i : ℕ
  x : ℚ
  x_new : ℚ
  err : ℚ
deriving DecidableEq, Repr

/-- One row of the modified-secant iteration table:
`iters.append((i, x, f_x, x_new, err))` in `ZOF_CLI.py` line 128. -/
structure ModSecEntry where
  i : ℕ
  x : ℚ
  f_x : ℚ
  x_new : ℚ
  err : ℚ
deriving DecidableEq, Repr

/-- A normal solve result: `(root_estimate, final_error, trace)`. -/
abbrev Result (E : Type) := ℚ × ℚ × List E

/-! ## The six CLI methods (`ZOF_CLI.py` lines 34-132) -/

/-- The loop body of `bisection` (`ZOF_CLI.py` lines 38-49).  When the fuel
runs out the Python loop falls through to
`return (a+b)/2.0, abs(b-a)/2.0, iters`, which is the fuel-0 case here. -/
def bisectionLoop (f : ℚ → ℚ) (tol : ℚ) :
    ℕ → ℕ → ℚ → ℚ → List BisectEntry → Result BisectEntry
  | 0, _, a, b, iters => ((a + b) / 2, |b - a| / 2, iters)
  | fuel + 1, i, a, b, iters =>
    let c := (a + b) / 2
    let fc := f c
    let err := |b - a| / 2
    let iters' := iters ++ [⟨i, a, b, c, fc, err⟩]
    if |fc| < tol ∨ err < tol then (c, err, iters')
    else if f a * fc < 0 then bisectionLoop f tol fuel (i + 1) a c iters'
    else bisectionLoop f tol fuel (i + 1) c b iters'

/-- `bisection(f, a, b, tol, max_iter)` of `ZOF_CLI.py` lines 34-49. -/
def bisection (f : ℚ → ℚ) (a b tol : ℚ) (max_iter : ℕ) :
    Except MethodError (Result BisectEntry) :=
  if f a * f b ≥ 0 then .error .invalidBracket
  else .ok (bisectionLoop f tol max_iter 1 a b [])

/-- The loop body of `regula_falsi` (`ZOF_CLI.py` lines 55-70).  `x_old`
and `err_prev` carry the Python locals `x_old` and `err`; the fuel-0 case
is the fall-through `return x, err, iters` (at that point the Python
variable `x` equals the value stored into `x_old` at the end of the last
iteration). -/
def regulaFalsiLoop (f : ℚ → ℚ) (tol : ℚ) :
    ℕ → ℕ → ℚ → ℚ → ℚ → ℚ → ℚ → ℚ → List RegulaEntry → Result RegulaEntry
  | 0, _, _, _, _, _, x_old, err_prev, iters => (x_old, err_prev, iters)
  | fuel + 1, i, a, b, fa, fb, x_old, _, iters =>
    let x := (a * fb - b * fa) / (fb - fa)
    let fx := f x
    let err := |x - x_old|
    let iters' := iters ++ [⟨i, a, b, x, fx, err⟩]
    if |fx| < tol ∨ err < tol then (x, err, iters')
    else if fa * fx < 0 then regulaFalsiLoop f tol fuel (i + 1) a x fa fx x err iters'
    else regulaFalsiLoop f tol fuel (i + 1) x b fx fb x err iters'

/-- `regula_falsi(f, a, b, tol, max_iter)` of `ZOF_CLI.py` lines 52-70.
`fa, fb = f(a), f(b)` and `x_old = a` initialise the carried state. -/
def regula_falsi (f : ℚ → ℚ) (a b tol : ℚ) (max_iter : ℕ) :
    Except MethodError (Result RegulaEntry) :=
  if f a * f b ≥ 0 then .error .invalidBracket
  else .ok (regulaFalsiLoop f tol max_iter 1 a b (f a) (f b) a 0 [])

/-- The loop body of `secant` (`ZOF_CLI.py` lines 74-85).  `x2_prev` and
`err_prev` carry the Python locals `x2` and `err` read by the
fall-through `return x2, err, iters`. -/
def secantLoop (f : ℚ → ℚ) (tol : ℚ) :
    ℕ → ℕ → ℚ → ℚ → ℚ → ℚ → List SecantEntry →
      Except MethodError (Result SecantEntry)
  | 0, _, _, _, x2_prev, err_prev, iters => .ok (x2_prev, err_prev, iters)
  | fuel + 1, i, x0, x1, _, _, iters =>
    let f0 := f x0
    let f1 := f x1
    if f1 - f0 = 0 then .error .zeroDenominator
    else
      let x2 := x1 - f1 * (x1 - x0) / (f1 - f0)
      let err := |x2 - x1|
      let iters' := iters ++ [⟨i, x0, x1, x2, f x2, err⟩]
      if |f x2| < tol ∨ err < tol then .ok (x2, err, iters')
      else secantLoop f tol fuel (i + 1) x1 x2 x2 err iters'

/-- `secant(f, x0, x1, tol, max_iter)` of `ZOF_CLI.py` lines 73-85. -/
def secant (f : ℚ → ℚ) (x0 x1 tol : ℚ) (max_iter : ℕ) :
    Except MethodError (Result SecantEntry) :=
  secantLoop f tol max_iter 1 x0 x1 0 0 []

/-- The loop body of `newton_raphson` (`ZOF_CLI.py` lines 89-102).  `x`
doubles as the Python local `x` (updated to `x_new` at the end of each
iteration), `err_prev` carries `err`; the fuel-0 case is the fall-through
`return x, err, iters`. -/
def newtonLoop (f df : ℚ → ℚ) (tol : ℚ) :
    ℕ → ℕ → ℚ → ℚ → List NewtonEntry → Except MethodError (Result NewtonEntry)
  | 0, _, x, err_prev, iters => .ok (x, err_prev, iters)
  | fuel + 1, i, x, _, iters =>
    let fx := f x
    let dfx := df x
    if dfx = 0 then .error .zeroDerivative
    else
      let x_new := x - fx / dfx
      let err := |x_new - x|
      let iters' := iters ++ [⟨i, x, fx, dfx, x_new, err⟩]
      if |fx| < tol ∨ err < tol then .ok (x_new, err, iters')
      else newtonLoop f df tol fuel (i + 1) x_new err iters'

/-- `newton_raphson(f, df, x0, tol, max_iter)` of `ZOF_CLI.py` lines 88-102. -/
def newton_raphson (f df : ℚ → ℚ) (x0 tol : ℚ) (max_iter : ℕ) :
    Except MethodError (Result NewtonEntry) :=
  newtonLoop f df tol max_iter 1 x0 0 []

/-- The loop body of `fixed_point` (`ZOF_CLI.py` lines 106-115). -/
def fixedPointLoop (g : ℚ → ℚ) (tol : ℚ) :
    ℕ → ℕ → ℚ → ℚ → List FixedEntry → Result FixedEntry
  | 0, _, x, err_prev, iters => (x, err_prev, iters)
  | fuel + 1, i, x, _, iters =>
    let x_new := g x
    let err := |x_new - x|
    let iters' := iters ++ [⟨i, x, x_new, err⟩]
    if err < tol then (x_new, err, iters')
    else fixedPointLoop g tol fuel (i + 1) x_new err iters'

/-- `fixed_point(g, x0, tol, max_iter)` of `ZOF_CLI.py` lines 105-115.
The only failure path of the Python code is an `EvaluationError` from `g`
itself, so with a total `g` the result is always a triple. -/
def fixed_point (g : ℚ → ℚ) (x0 tol : ℚ) (max_iter : ℕ) : Result FixedEntry :=
  fixedPointLoop g tol max_iter 1 x0 0 []

/-- The loop body of `modified_secant` (`ZOF_CLI.py` lines 119-132). -/
def modifiedSecantLoop (f : ℚ → ℚ) (delta tol : ℚ) :
    ℕ → ℕ → ℚ → ℚ → List ModSecEntry → Except MethodError (Result ModSecEntry)
  | 0, _, x, err_prev, iters => .ok (x, err_prev, iters)
  | fuel + 1, i, x, _, iters =>
    let f_x := f x
    let denom := f (x + delta * x) - f_x
    if denom = 0 then .error .zeroDenominator
    else
      let x_new := x - delta * x * f_x / denom
      let err := |x_new - x|
      let iters' := iters ++ [⟨i, x, f_x, x_new, err⟩]
      if |f_x| < tol ∨ err < tol then .ok (x_new, err, iters')
      else modifiedSecantLoop f delta tol fuel (i + 1) x_new err iters'

/-- `modified_secant(f, x0, delta, tol, max_iter)` of `ZOF_CLI.py`
lines 118-132. -/
def modified_secant (f : ℚ → ℚ) (x0 delta tol : ℚ) (max_iter : ℕ) :
    Except MethodError (Result ModSecEntry) :=
  modifiedSecantLoop f delta tol max_iter 1 x0 0 []

/-! ## Fallible-evaluator variants

The function handle built by `make_f` (`ZOF_CLI.py` lines 22-30) may raise
an `EvaluationError` at any argument; the methods do not catch it, so it
propagates and aborts the call (spec §7).  To verify that propagation we
re-embed `secant` and `newton_raphson` with a handle of type
`ℚ → Option ℚ` where `none` at an argument stands for the evaluator
raising there.  Each Python call site of the handle becomes one `match`;
`none` anywhere aborts with `.error .evalError`, discarding the local
`iters` exactly as the Python `raise` does. -/

/-- The loop body of `secant` with a fallible handle.  Note the two
separate evaluations of `f x2` (`ZOF_CLI.py` lines 81 and 82) each get
their own `match`. -/
def secantELoop (f : ℚ → Option ℚ) (tol : ℚ) :
    ℕ → ℕ → ℚ → ℚ → ℚ → ℚ → List SecantEntry →
      Except MethodError (Result SecantEntry)
  | 0, _, _, _, x2_prev, err_prev, iters => .ok (x2_prev, err_prev, iters)
  | fuel + 1, i, x0, x1, _, _, iters =>
    match f x0 with
    | none => .error .evalError
    | some f0 =>
      match f x1 with
      | none => .error .evalError
      | some f1 =>
        if f1 - f0 = 0 then .error .zeroDenominator
        else
          let x2 := x1 - f1 * (x1 - x0) / (f1 - f0)
          let err := |x2 - x1|
          match f x2 with
          | none => .error .evalError
          | some fx2 =>
            let iters' := iters ++ [⟨i, x0, x1, x2, fx2, err⟩]
            match f x2 with
            | none => .error .evalError
            | some fx2b =>
              if |fx2b| < tol ∨ err < tol then .ok (x2, err, iters')
              else secantELoop f tol fuel (i + 1) x1 x2 x2 err iters'

/-- `secant` with a fallible evaluator handle. -/
def secantE (f : ℚ → Option ℚ) (x0 x1 tol : ℚ) (max_iter : ℕ) :
    Except MethodError (Result SecantEntry) :=
  secantELoop f tol max_iter 1 x0 x1 0 0 []

/-- The loop body of `newton_raphson` with fallible handles for `f`
and `df`. -/
def newtonELoop (f df : ℚ → Option ℚ) (tol : ℚ) :
    ℕ → ℕ → ℚ → ℚ → List NewtonEntry → Except MethodError (Result NewtonEntry)
  | 0, _, x, err_prev, iters => .ok (x, err_prev, iters)
  | fuel + 1, i, x, _, iters =>
    match f x with
    | none => .error .evalError
    | some fx =>
      match df x with
      | none => .error .evalError
      | some dfx =>
        if dfx = 0 then .error .zeroDerivative
        else
          let x_new := x - fx / dfx
          let err := |x_new - x|
          let iters' := iters ++ [⟨i, x, fx, dfx, x_new, err⟩]
          if |fx| < tol ∨ err < tol then .ok (x_new, err, iters')
          else newtonELoop f df tol fuel (i + 1) x_new err iters'

/-- `newton_raphson` with fallible evaluator handles. -/
def newtonE (f df : ℚ → Option ℚ) (x0 tol : ℚ) (max_iter : ℕ) :
    Except MethodError (Result NewtonEntry) :=
  newtonELoop f df tol max_iter 1 x0 0 []

/-- The loop body of `bisection` with a fallible handle: each pass
evaluates `f(c)` (`ZOF_CLI.py` line 40) and, when the convergence test
fails, `f(a)` again in the branch test (line 45). -/
def bisectionELoop (f : ℚ → Option ℚ) (tol : ℚ) :
    ℕ → ℕ → ℚ → ℚ → List BisectEntry → Except MethodError (Result BisectEntry)
  | 0, _, a, b, iters => .ok ((a + b) / 2, |b - a| / 2, iters)
  | fuel + 1, i, a, b, iters =>
    let c := (a + b) / 2
    match f c with
    | none => .error .evalError
    | some fc =>
      let err := |b - a| / 2
      let iters' := iters ++ [⟨i, a, b, c, fc, err⟩]
      if |fc| < tol ∨ err < tol then .ok (c, err, iters')
      else
        match f a with
        | none => .error .evalError
        | some va =>
          if va * fc < 0 then bisectionELoop f tol fuel (i + 1) a c iters'
          else bisectionELoop f tol fuel (i + 1) c b iters'

/-- `bisection` with a fallible handle; the bracket guard
`f(a) * f(b) >= 0` (`ZOF_CLI.py` line 35) evaluates `f` at `a` and then
at `b` before the loop starts. -/
def bisectionE (f : ℚ → Option ℚ) (a b tol : ℚ) (max_iter : ℕ) :
    Except MethodError (Result BisectEntry) :=
  match f a with
  | none => .error .evalError
  | some va =>
    match f b with
    | none => .error .evalError
    | some vb =>
      if va * vb ≥ 0 then .error .invalidBracket
      else bisectionELoop f tol max_iter 1 a b []

/-- The loop body of `regula_falsi` with a fallible handle: each pass
evaluates the handle once, at the new point `x` (`ZOF_CLI.py` line 60). -/
def regulaFalsiELoop (f : ℚ → Option ℚ) (tol : ℚ) :
    ℕ → ℕ → ℚ → ℚ → ℚ → ℚ → ℚ → ℚ → List RegulaEntry →
      Except MethodError (Result RegulaEntry)
  | 0, _, _, _, _, _, x_old, err_prev, iters => .ok (x_old, err_prev, iters)
  | fuel + 1, i, a, b, fa, fb, x_old, _, iters =>
    let x := (a * fb - b * fa) / (fb - fa)
    match f x with
    | none => .error .evalError
    | some fx =>
      let err := |x - x_old|
      let iters' := iters ++ [⟨i, a, b, x, fx, err⟩]
      if |fx| < tol ∨ err < tol then .ok (x, err, iters')
      else if fa * fx < 0 then regulaFalsiELoop f tol fuel (i + 1) a x fa fx x err iters'
      else regulaFalsiELoop f tol fuel (i + 1) x b fx fb x err iters'

/-- `regula_falsi` with a fallible handle; the guard (`ZOF_CLI.py`
line 53) and the initialisation `fa, fb = f(a), f(b)` (line 56) each
evaluate `f` at `a` and at `b` before the loop starts. -/
def regula_falsiE (f : ℚ → Option ℚ) (a b tol : ℚ) (max_iter : ℕ) :
    Except MethodError (Result RegulaEntry) :=
  match f a with
  | none => .error .evalError
  | some va =>
    match f b with
    | none => .error .evalError
    | some vb =>
      if va * vb ≥ 0 then .error .invalidBracket
      else
        match f a with
        | none => .error .evalError
        | some fa =>
          match f b with
          | none => .error .evalError
          | some fb => regulaFalsiELoop f tol max_iter 1 a b fa fb a 0 []

/-- The loop body of `fixed_point` with a fallible handle: each pass
evaluates `g(x)` once (`ZOF_CLI.py` line 109); per spec §4.5 the
propagated evaluator failure is this method's only failure path. -/
def fixedPointELoop (g : ℚ → Option ℚ) (tol : ℚ) :
    ℕ → ℕ → ℚ → ℚ → List FixedEntry → Except MethodError (Result FixedEntry)
  | 0, _, x, err_prev, iters => .ok (x, err_prev, iters)
  | fuel + 1, i, x, _, iters =>
    match g x with
    | none => .error .evalError
    | some x_new =>
      let err := |x_new - x|
      let iters' := iters ++ [⟨i, x, x_new, err⟩]
      if err < tol then .ok (x_new, err, iters')
      else fixedPointELoop g tol fuel (i + 1) x_new err iters'

/-- `fixed_point` with a fallible handle. -/
def fixed_pointE (g : ℚ → Option ℚ) (x0 tol : ℚ) (max_iter : ℕ) :
    Except MethodError (Result FixedEntry) :=
  fixedPointELoop g tol max_iter 1 x0 0 []

/-- The loop body of `modified_secant` with a fallible handle: each pass
evaluates `f(x)` (`ZOF_CLI.py` line 122) and `f(x + delta*x)`
(line 123). -/
def modifiedSecantELoop (f : ℚ → Option ℚ) (delta tol : ℚ) :
    ℕ → ℕ → ℚ → ℚ → List ModSecEntry → Except MethodError (Result ModSecEntry)
  | 0, _, x, err_prev, iters => .ok (x, err_prev, iters)
  | fuel + 1, i, x, _, iters =>
    match f x with
    | none => .error .evalError
    | some f_x =>
      match f (x + delta * x) with
      | none => .error .evalError
      | some fp =>
        let denom := fp - f_x
        if denom = 0 then .error .zeroDenominator
        else
          let x_new := x - delta * x * f_x / denom
          let err := |x_new - x|
          let iters' := iters ++ [⟨i, x, f_x, x_new, err⟩]
          if |f_x| < tol ∨ err < tol then .ok (x_new, err, iters')
          else modifiedSecantELoop f delta tol fuel (i + 1) x_new err iters'

/-- `modified_secant` with a fallible handle. -/
def modified_secantE (f : ℚ → Option ℚ) (x0 delta tol : ℚ) (max_iter : ℕ) :
    Except MethodError (Result ModSecEntry) :=
  modifiedSecantELoop f delta tol max_iter 1 x0 0 []

/-! ## The six web wrappers (`app.py` lines 19-118)

Each wrapper returns the Python pair `(iters_or_None, error_or_None)`,
modelled as `Option (List entry) × Option String` with the exact message
strings of `app.py`.  The dict rows `{'i': .., 'a': .., ...}` have the
same keys and numeric values as the CLI tuples, so they reuse the entry
structures above.  A wrapper's loop returns only the iteration list on
both exits (convergence and exhaustion), so the loops here return the
list (wrapped in `Except String` for the methods that can fail
mid-loop). -/

/-- The loop of `bisection_web` (`app.py` lines 23-34). -/
def bisectionWebLoop (f : ℚ → ℚ) (tol : ℚ) :
    ℕ → ℕ → ℚ → ℚ → List BisectEntry → List BisectEntry
  | 0, _, _, _, iters => iters
  | fuel + 1, i, a, b, iters =>
    let c := (a + b) / 2
    let fc := f c
    let err := |b - a| / 2
    let iters' := iters ++ [⟨i, a, b, c, fc, err⟩]
    if |fc| < tol ∨ err < tol then iters'
    else if f a * fc < 0 then bisectionWebLoop f tol fuel (i + 1) a c iters'
    else bisectionWebLoop f tol fuel (i + 1) c b iters'

/-- `bisection_web(f, a, b, tol, max_iter)` of `app.py` lines 19-34. -/
def bisection_web (f : ℚ → ℚ) (a b tol : ℚ) (max_iter : ℕ) :
    Option (List BisectEntry) × Option String :=
  if f a * f b ≥ 0 then (none, some "f(a) and f(b) must have opposite signs.")
  else (some (bisectionWebLoop f tol max_iter 1 a b []), none)

/-- The loop of `regula_falsi_web` (`app.py` lines 43-55). -/
def regulaFalsiWebLoop (f : ℚ → ℚ) (tol : ℚ) :
    ℕ → ℕ → ℚ → ℚ → ℚ → ℚ → ℚ → List RegulaEntry → List RegulaEntry
  | 0, _, _, _, _, _, _, iters => iters
  | fuel + 1, i, a, b, fa, fb, x_old, iters =>
    let x := (a * fb - b * fa) / (fb - fa)
    let fx := f x
    let err := |x - x_old|
    let iters' := iters ++ [⟨i, a, b, x, fx, err⟩]
    if |fx| < tol ∨ err < tol then iters'
    else if fa * fx < 0 then regulaFalsiWebLoop f tol fuel (i + 1) a x fa fx x iters'
    else regulaFalsiWebLoop f tol fuel (i + 1) x b fx fb x iters'

/-- `regula_falsi_web(f, a, b, tol, max_iter)` of `app.py` lines 37-55. -/
def regula_falsi_web (f : ℚ → ℚ) (a b tol : ℚ) (max_iter : ℕ) :
    Option (List RegulaEntry) × Option String :=
  if f a * f b ≥ 0 then (none, some "f(a) and f(b) must have opposite signs.")
  else (some (regulaFalsiWebLoop f tol max_iter 1 a b (f a) (f b) a []), none)

/-- The loop of `secant_web` (`app.py` lines 59-71). -/
def secantWebLoop (f : ℚ → ℚ) (tol : ℚ) :
    ℕ → ℕ → ℚ → ℚ → List SecantEntry → Except String (List SecantEntry)
  | 0, _, _, _, iters => .ok iters
  | fuel + 1, i, x0, x1, iters =>
    let f0 := f x0
    let f1 := f x1
    let denom := f1 - f0
    if denom = 0 then .error "Zero denominator in secant update."
    else
      let x2 := x1 - f1 * (x1 - x0) / denom
      let err := |x2 - x1|
      let iters' := iters ++ [⟨i, x0, x1, x2, f x2, err⟩]
      if |f x2| < tol ∨ err < tol then .ok iters'
      else secantWebLoop f tol fuel (i + 1) x1 x2 iters'

/-- `secant_web(f, x0, x1, tol, max_iter)` of `app.py` lines 58-71. -/
def secant_web (f : ℚ → ℚ) (x0 x1 tol : ℚ) (max_iter : ℕ) :
    Option (List SecantEntry) × Option String :=
  match secantWebLoop f tol max_iter 1 x0 x1 [] with
  | .error msg => (none, some msg)
  | .ok iters => (some iters, none)

/-- The loop of `newton_web` (`app.py` lines 75-88). -/
def newtonWebLoop (f df : ℚ → ℚ) (tol : ℚ) :
    ℕ → ℕ → ℚ → List NewtonEntry → Except String (List NewtonEntry)
  | 0, _, _, iters => .ok iters
  | fuel + 1, i, x, iters =>
    let fx := f x
    let dfx := df x
    if dfx = 0 then .error "Derivative is zero; Newton method fails."
    else
      let x_new := x - fx / dfx
      let err := |x_new - x|
      let iters' := iters ++ [⟨i, x, fx, dfx, x_new, err⟩]
      if |fx| < tol ∨ err < tol then .ok iters'
      else newtonWebLoop f df tol fuel (i + 1) x_new iters'

/-- `newton_web(f, df, x0, tol, max_iter)` of `app.py` lines 74-88. -/
def newton_web (f df : ℚ → ℚ) (x0 tol : ℚ) (max_iter : ℕ) :
    Option (List NewtonEntry) × Option String :=
  match newtonWebLoop f df tol max_iter 1 x0 [] with
  | .error msg => (none, some msg)
  | .ok iters => (some iters, none)

/-- The loop of `fixed_point_web` (`app.py` lines 92-101). -/
def fixedPointWebLoop (g : ℚ → ℚ) (tol : ℚ) :
    ℕ → ℕ → ℚ → List FixedEntry → List FixedEntry
  | 0, _, _, iters => iters
  | fuel + 1, i, x, iters =>
    let x_new := g x
    let err := |x_new - x|
    let iters' := iters ++ [⟨i, x, x_new, err⟩]
    if err < tol then iters'
    else fixedPointWebLoop g tol fuel (i + 1) x_new iters'

/-- `fixed_point_web(g, x0, tol, max_iter)` of `app.py` lines 91-101. -/
def fixed_point_web (g : ℚ → ℚ) (x0 tol : ℚ) (max_iter : ℕ) :
    Option (List FixedEntry) × Option String :=
  (some (fixedPointWebLoop g tol max_iter 1 x0 []), none)

/-- The loop of `modified_secant_web` (`app.py` lines 105-118). -/
def modifiedSecantWebLoop (f : ℚ → ℚ) (delta tol : ℚ) :
    ℕ → ℕ → ℚ → List ModSecEntry → Except String (List ModSecEntry)
  | 0, _, _, iters => .ok iters
  | fuel + 1, i, x, iters =>
    let f_x := f x
    let denom := f (x + delta * x) - f_x
    if denom = 0 then .error "Zero denominator in modified secant (bad delta)."
    else
      let x_new := x - delta * x * f_x / denom
      let err := |x_new - x|
      let iters' := iters ++ [⟨i, x, f_x, x_new, err⟩]
      if |f_x| < tol ∨ err < tol then .ok iters'
      else modifiedSecantWebLoop f delta tol fuel (i + 1) x_new iters'

/-- `modified_secant_web(f, x0, delta, tol, max_iter)` of `app.py`
lines 104-118. -/
def modified_secant_web (f : ℚ → ℚ) (x0 delta tol : ℚ) (max_iter : ℕ) :
    Option (List ModSecEntry) × Option String :=
  match modifiedSecantWebLoop f delta tol max_iter 1 x0 [] with
  | .error msg => (none, some msg)
  | .ok iters => (some iters, none)

/-! ## Evaluation-logging variants

To reason about how often the user-supplied handle is invoked, each CLI
method is re-embedded with an extra accumulator `log : List ℚ` recording
the argument of every handle invocation in call order (for
`newton_raphson` the invocations of `f` and `df` go into the same log,
both being user-supplied handles).  The `log ++ [..]` appends sit at the
exact Python call sites of `ZOF_CLI.py`; everything else is unchanged
from the base embedding. -/

/-- `bisection` logging every handle call.  Per loop pass: `f(c)` at
line 40, then `f(a)` at line 45 only when the convergence test fails. -/
def bisectionLogLoop (f : ℚ → ℚ) (tol : ℚ) :
    ℕ → ℕ → ℚ → ℚ → List BisectEntry → List ℚ → Result BisectEntry × List ℚ
  | 0, _, a, b, iters, log => (((a + b) / 2, |b - a| / 2, iters), log)
  | fuel + 1, i, a, b, iters, log =>
    let c := (a + b) / 2
    let fc := f c
    let log := log ++ [c]
    let err := |b - a| / 2
    let iters' := iters ++ [⟨i, a, b, c, fc, err⟩]
    if |fc| < tol ∨ err < tol then ((c, err, iters'), log)
    else
      let log := log ++ [a]
      if f a * fc < 0 then bisectionLogLoop f tol fuel (i + 1) a c iters' log
      else bisectionLogLoop f tol fuel (i + 1) c b iters' log

/-- `bisection` with call log; the bracket guard `f(a) * f(b) >= 0`
contributes the two pre-loop evaluations. -/
def bisectionLog (f : ℚ → ℚ) (a b tol : ℚ) (max_iter : ℕ) :
    Except MethodError (Result BisectEntry) × List ℚ :=
  if f a * f b ≥ 0 then (.error .invalidBracket, [a, b])
  else
    let r := bisectionLogLoop f tol max_iter 1 a b [] [a, b]
    (.ok r.1, r.2)

/-- `regula_falsi` logging every handle call.  The loop body evaluates
the handle exactly once per pass (`fx = f(x)`, line 60). -/
def regulaFalsiLogLoop (f : ℚ → ℚ) (tol : ℚ) :
    ℕ → ℕ → ℚ → ℚ → ℚ → ℚ → ℚ → ℚ → List RegulaEntry → List ℚ →
      Result RegulaEntry × List ℚ
  | 0, _, _, _, _, _, x_old, err_prev, iters, log => ((x_old, err_prev, iters), log)
  | fuel + 1, i, a, b, fa, fb, x_old, _, iters, log =>
    let x := (a * fb - b * fa) / (fb - fa)
    let fx := f x
    let log := log ++ [x]
    let err := |x - x_old|
    let iters' := iters ++ [⟨i, a, b, x, fx, err⟩]
    if |fx| < tol ∨ err < tol then ((x, err, iters'), log)
    else if fa * fx < 0 then regulaFalsiLogLoop f tol fuel (i + 1) a x fa fx x err iters' log
    else regulaFalsiLogLoop f tol fuel (i + 1) x b fx fb x err iters' log

/-- `regula_falsi` with call log; the guard and the initialisation
`fa, fb = f(a), f(b)` contribute the four pre-loop evaluations. -/
def regulaFalsiLog (f : ℚ → ℚ) (a b tol : ℚ) (max_iter : ℕ) :
    Except MethodError (Result RegulaEntry) × List ℚ :=
  if f a * f b ≥ 0 then (.error .invalidBracket, [a, b])
  else
    let r := regulaFalsiLogLoop f tol max_iter 1 a b (f a) (f b) a 0 [] [a, b, a, b]
    (.ok r.1, r.2)

/-- `secant` logging every handle call.  Per loop pass:
`f0, f1 = f(x0), f(x1)` at line 76, `f(x2)` in the trace row at line 81
and `f(x2)` again in the convergence test at line 82 — four calls. -/
def secantLogLoop (f : ℚ → ℚ) (tol : ℚ) :
    ℕ → ℕ → ℚ → ℚ → ℚ → ℚ → List SecantEntry → List ℚ →
      Except MethodError (Result SecantEntry) × List ℚ
  | 0, _, _, _, x2_prev, err_prev, iters, log => (.ok (x2_prev, err_prev, iters), log)
  | fuel + 1, i, x0, x1, _, _, iters, log =>
    let f0 := f x0
    let f1 := f x1
    let log := log ++ [x0, x1]
    if f1 - f0 = 0 then (.error .zeroDenominator, log)
    else
      let x2 := x1 - f1 * (x1 - x0) / (f1 - f0)
      let err := |x2 - x1|
      let iters' := iters ++ [⟨i, x0, x1, x2, f x2, err⟩]
      let log := log ++ [x2, x2]
      if |f x2| < tol ∨ err < tol then (.ok (x2, err, iters'), log)
      else secantLogLoop f tol fuel (i + 1) x1 x2 x2 err iters' log

/-- `secant` with call log. -/
def secantLog (f : ℚ → ℚ) (x0 x1 tol : ℚ) (max_iter : ℕ) :
    Except MethodError (Result SecantEntry) × List ℚ :=
  secantLogLoop f tol max_iter 1 x0 x1 0 0 [] []

/-- `newton_raphson` logging every handle call (`f` and `df` jointly):
`fx = f(x)` and `dfx = df(x)` at lines 92-93 — two calls per pass. -/
def newtonLogLoop (f df : ℚ → ℚ) (tol : ℚ) :
    ℕ → ℕ → ℚ → ℚ → List NewtonEntry → List ℚ →
      Except MethodError (Result NewtonEntry) × List ℚ
  | 0, _, x, err_prev, iters, log => (.ok (x, err_prev, iters), log)
  | fuel + 1, i, x, _, iters, log =>
    let fx := f x
    let dfx := df x
    let log := log ++ [x, x]
    if dfx = 0 then (.error .zeroDerivative, log)
    else
      let x_new := x - fx / dfx
      let err := |x_new - x|
      let iters' := iters ++ [⟨i, x, fx, dfx, x_new, err⟩]
      if |fx| < tol ∨ err < tol then (.ok (x_new, err, iters'), log)
      else newtonLogLoop f df tol fuel (i + 1) x_new err iters' log

/-- `newton_raphson` with call log. -/
def newtonLog (f df : ℚ → ℚ) (x0 tol : ℚ) (max_iter : ℕ) :
    Except MethodError (Result NewtonEntry) × List ℚ :=
  newtonLogLoop f df tol max_iter 1 x0 0 [] []

/-- `fixed_point` logging every handle call: `x_new = g(x)` at line 109 —
one call per pass. -/
def fixedPointLogLoop (g : ℚ → ℚ) (tol : ℚ) :
    ℕ → ℕ → ℚ → ℚ → List FixedEntry → List ℚ → Result FixedEntry × List ℚ
  | 0, _, x, err_prev, iters, log => ((x, err_prev, iters), log)
  | fuel + 1, i, x, _, iters, log =>
    let x_new := g x
    let log := log ++ [x]
    let err := |x_new - x|
    let iters' := iters ++ [⟨i, x, x_new, err⟩]
    if err < tol then ((x_new, err, iters'), log)
    else fixedPointLogLoop g tol fuel (i + 1) x_new err iters' log

/-- `fixed_point` with call log. -/
def fixedPointLog (g : ℚ → ℚ) (x0 tol : ℚ) (max_iter : ℕ) :
    Result FixedEntry × List ℚ :=
  fixedPointLogLoop g tol max_iter 1 x0 0 [] []

/-- `modified_secant` logging every handle call: `f_x = f(x)` at line 122
and `f(x + delta*x)` at line 123 — two calls per pass. -/
def modifiedSecantLogLoop (f : ℚ → ℚ) (delta tol : ℚ) :
    ℕ → ℕ → ℚ → ℚ → List ModSecEntry → List ℚ →
      Except MethodError (Result ModSecEntry) × List ℚ
  | 0, _, x, err_prev, iters, log => (.ok (x, err_prev, iters), log)
  | fuel + 1, i, x, _, iters, log =>
    let f_x := f x
    let denom := f (x + delta * x) - f_x
    let log := log ++ [x, x + delta * x]
    if denom = 0 then (.error .zeroDenominator, log)
    else
      let x_new := x - delta * x * f_x / denom
      let err := |x_new - x|
      let iters' := iters ++ [⟨i, x, f_x, x_new, err⟩]
      if |f_x| < tol ∨ err < tol then (.ok (x_new, err, iters'), log)
      else modifiedSecantLogLoop f delta tol fuel (i + 1) x_new err iters' log

/-- `modified_secant` with call log. -/
def modifiedSecantLog (f : ℚ → ℚ) (x0 delta tol : ℚ) (max_iter : ℕ) :
    Except MethodError (Result ModSecEntry) × List ℚ :=
  modifiedSecantLogLoop f delta tol max_iter 1 x0 0 [] []

/-! ## Concrete handles used by the witnesses -/

/-- `f(x) = x^2 - 2`, a concrete function handle for witnesses. -/
def fSq : ℚ → ℚ := fun x => x * x - 2

/-- The derivative handle `2x` for `fSq`. -/
def dfSq : ℚ → ℚ := fun x => 2 * x

/-! ## Auxiliary lemmas -/

lemma between_of_mul_nonpos {x a b : ℚ} (h : (x - a) * (x - b) ≤ 0) :
    min a b ≤ x ∧ x ≤ max a b := by
  rcases le_total a b with hab | hab
  · rw [min_eq_left hab, max_eq_right hab]
    constructor
    · by_contra hx
      push_neg at hx
      nlinarith
    · by_contra hx
      push_neg at hx
      nlinarith
  · rw [min_eq_right hab, max_eq_left hab]
    constructor
    · by_contra hx
      push_neg at hx
      nlinarith
    · by_contra hx
      push_neg at hx
      nlinarith

/-- The regula-falsi point `x = (a*fb - b*fa)/(fb - fa)` lies between the
bracket endpoints whenever `fa` and `fb` have opposite signs. -/
lemma falsi_between {a b fa fb : ℚ} (h : fa * fb < 0) :
    min a b ≤ (a * fb - b * fa) / (fb - fa)
      ∧ (a * fb - b * fa) / (fb - fa) ≤ max a b := by
  have hne : fb - fa ≠ 0 := by
    intro h0
    have hfb : fb = fa := by linarith
    rw [hfb] at h
    nlinarith [mul_self_nonneg fa]
  apply between_of_mul_nonpos
  have key : ((a * fb - b * fa) / (fb - fa) - a) * ((a * fb - b * fa) / (fb - fa) - b)
      = fa * fb * ((a - b) / (fb - fa)) ^ 2 := by
    field_simp
    ring
  rw [key]
  nlinarith [sq_nonneg ((a - b) / (fb - fa))]

/-- The endpoint-replacement rule preserves the sign change: if
`fa * fb < 0`, the new point value `fx` is nonzero and does not oppose
`fa`, then `fx` opposes `fb`. -/
lemma sign_carries {fa fb fx : ℚ} (hab : fa * fb < 0) (hax : ¬ fa * fx < 0)
    (hx : fx ≠ 0) : fx * fb < 0 := by
  push_neg at hax
  have ha : fa ≠ 0 := by
    rintro rfl
    rw [zero_mul] at hab
    exact absurd hab (lt_irrefl 0)
  have h1 : 0 < fa * fx := lt_of_le_of_ne hax (Ne.symm (mul_ne_zero ha hx))
  have h2 : fa * fx * (fa * fb) < 0 := mul_neg_of_pos_of_neg h1 hab
  by_contra hc
  push_neg at hc
  nlinarith [mul_nonneg (mul_self_nonneg fa) hc]

lemma bisectionLoop_mem (f : ℚ → ℚ) (tol lo hi : ℚ) :
    ∀ (n i : ℕ) (a b : ℚ) (iters : List BisectEntry),
      lo ≤ a → a ≤ hi → lo ≤ b → b ≤ hi →
      lo ≤ (bisectionLoop f tol n i a b iters).1
        ∧ (bisectionLoop f tol n i a b iters).1 ≤ hi := by
  intro n
  induction n with
  | zero =>
    intro i a b iters h1 h2 h3 h4
    simp only [bisectionLoop]
    constructor <;> · dsimp only; linarith
  | succ k ih =>
    intro i a b iters h1 h2 h3 h4
    simp only [bisectionLoop]
    split_ifs with hc hs
    · constructor <;> · dsimp only; linarith
    · exact ih (i + 1) a ((a + b) / 2) _ h1 h2 (by linarith) (by linarith)
    · exact ih (i + 1) ((a + b) / 2) b _ (by linarith) (by linarith) h3 h4

lemma regulaFalsiLoop_mem (f : ℚ → ℚ) (tol lo hi : ℚ) (htol : 0 < tol) :
    ∀ (n i : ℕ) (a b fa fb x_old ep : ℚ) (iters : List RegulaEntry),
      lo ≤ a → a ≤ hi → lo ≤ b → b ≤ hi → lo ≤ x_old → x_old ≤ hi →
      fa * fb < 0 →
      lo ≤ (regulaFalsiLoop f tol n i a b fa fb x_old ep iters).1
        ∧ (regulaFalsiLoop f tol n i a b fa fb x_old ep iters).1 ≤ hi := by
  intro n
  induction n with
  | zero =>
    intro i a b fa fb x_old ep iters h1 h2 h3 h4 h5 h6 hab
    simp only [regulaFalsiLoop]
    exact ⟨h5, h6⟩
  | succ k ih =>
    intro i a b fa fb x_old ep iters h1 h2 h3 h4 h5 h6 hab
    simp only [regulaFalsiLoop]
    have hx := falsi_between (a := a) (b := b) hab
    have hxlo : lo ≤ (a * fb - b * fa) / (fb - fa) := le_trans (le_min h1 h3) hx.1
    have hxhi : (a * fb - b * fa) / (fb - fa) ≤ hi := le_trans hx.2 (max_le h2 h4)
    split_ifs with hc hs
    · exact ⟨hxlo, hxhi⟩
    · exact ih (i + 1) a _ fa _ _ _ _ h1 h2 hxlo hxhi hxlo hxhi hs
    · have hfx : f ((a * fb - b * fa) / (fb - fa)) ≠ 0 := by
        intro h0
        push_neg at hc
        rw [h0, abs_zero] at hc
        linarith [hc.1]
      exact ih (i + 1) _ b _ fb _ _ _ hxlo hxhi h3 h4 hxlo hxhi
        (sign_carries hab hs hfx)

lemma bisectionLoop_halving (f : ℚ → ℚ) (tol : ℚ) :
    ∀ (n i : ℕ) (a b : ℚ) (iters : List BisectEntry),
      List.Chain' (fun e1 e2 => e2.err = e1.err / 2) iters →
      (∀ e ∈ iters.getLast?, e.err = |b - a|) →
      List.Chain' (fun e1 e2 => e2.err = e1.err / 2)
        (bisectionLoop f tol n i a b iters).2.2 := by
  intro n
  induction n with
  | zero =>
    intro i a b iters hch hlast
    simpa only [bisectionLoop] using hch
  | succ k ih =>
    intro i a b iters hch hlast
    simp only [bisectionLoop]
    have hch' : List.Chain' (fun e1 e2 => e2.err = e1.err / 2)
        (iters ++ [⟨i, a, b, (a + b) / 2, f ((a + b) / 2), |b - a| / 2⟩]) := by
      refine List.Chain'.append hch (List.chain'_singleton _) ?_
      intro x hx y hy
      simp only [List.head?_cons, Option.mem_some_iff] at hy
      subst hy
      show |b - a| / 2 = x.err / 2
      rw [hlast x hx]
    split_ifs with hc hs
    · exact hch'
    · refine ih (i + 1) a ((a + b) / 2) _ hch' ?_
      intro e he
      rw [List.getLast?_concat] at he
      simp only [Option.mem_some_iff] at he
      subst he
      show |b - a| / 2 = |(a + b) / 2 - a|
      rw [show (a + b) / 2 - a = (b - a) / 2 by ring, abs_div]
      norm_num
    · refine ih (i + 1) ((a + b) / 2) b _ hch' ?_
      intro e he
      rw [List.getLast?_concat] at he
      simp only [Option.mem_some_iff] at he
      subst he
      show |b - a| / 2 = |b - (a + b) / 2|
      rw [show b - (a + b) / 2 = (b - a) / 2 by ring, abs_div]
      norm_num

/-- The trace rows of a solve call are numbered `1..k` in insertion
order (`idx` extracts the stored iteration index). -/
def OneIndexed {α : Type} (idx : α → ℕ) (l : List α) : Prop :=
  ∀ (j : ℕ) (h : j < l.length), idx (l.get ⟨j, h⟩) = j + 1

lemma OneIndexed.append {α : Type} {idx : α → ℕ} {l : List α} {e : α}
    (hl : OneIndexed idx l) (he : idx e = l.length + 1) :
    OneIndexed idx (l ++ [e]) := by
  intro j h
  rw [List.get_eq_getElem]
  rcases Nat.lt_or_ge j l.length with hj | hj
  · rw [List.getElem_append_left hj]
    have := hl j hj
    rwa [List.get_eq_getElem] at this
  · have hj2 : j = l.length := by
      simp only [List.length_append, List.length_singleton] at h
      omega
    rw [List.getElem_concat_length _ _ _ hj2]
    rw [he, hj2]

lemma bisectionLoop_trace_shape (f : ℚ → ℚ) (tol : ℚ) :
    ∀ (n i : ℕ) (a b : ℚ) (iters : List BisectEntry),
      iters.length ≤ (bisectionLoop f tol n i a b iters).2.2.length
      ∧ (bisectionLoop f tol n i a b iters).2.2.length ≤ iters.length + n
      ∧ (1 ≤ n → iters.length + 1 ≤ (bisectionLoop f tol n i a b iters).2.2.length)
      ∧ (OneIndexed BisectEntry.i iters → i = iters.length + 1 →
          OneIndexed BisectEntry.i (bisectionLoop f tol n i a b iters).2.2) := by
  intro n
  induction n with
  | zero =>
    intro i a b iters
    simp only [bisectionLoop]
    exact ⟨le_refl _, by omega, by omega, fun h _ => h⟩
  | succ k ih =>
    intro i a b iters
    simp only [bisectionLoop]
    split_ifs with hc hs
    · refine ⟨by simp, by simp, fun _ => by simp, fun hidx hi => hidx.append hi⟩
    · obtain ⟨ih1, ih2, ih3, ih4⟩ := ih (i + 1) a ((a + b) / 2)
        (iters ++ [⟨i, a, b, (a + b) / 2, f ((a + b) / 2), |b - a| / 2⟩])
      simp only [List.length_append, List.length_singleton] at ih1 ih2 ih3
      refine ⟨by omega, by omega, fun _ => by omega, fun hidx hi => ?_⟩
      exact ih4 (hidx.append hi) (by simp; omega)
    · obtain ⟨ih1, ih2, ih3, ih4⟩ := ih (i + 1) ((a + b) / 2) b
        (iters ++ [⟨i, a, b, (a + b) / 2, f ((a + b) / 2), |b - a| / 2⟩])
      simp only [List.length_append, List.length_singleton] at ih1 ih2 ih3
      refine ⟨by omega, by omega, fun _ => by omega, fun hidx hi => ?_⟩
      exact ih4 (hidx.append hi) (by simp; omega)

lemma regulaFalsiLoop_trace_shape (f : ℚ → ℚ) (tol : ℚ) :
    ∀ (n i : ℕ) (a b fa fb x_old ep : ℚ) (iters : List RegulaEntry),
      iters.length ≤ (regulaFalsiLoop f tol n i a b fa fb x_old ep iters).2.2.length
      ∧ (regulaFalsiLoop f tol n i a b fa fb x_old ep iters).2.2.length ≤ iters.length + n
      ∧ (1 ≤ n →
          iters.length + 1 ≤ (regulaFalsiLoop f tol n i a b fa fb x_old ep iters).2.2.length)
      ∧ (OneIndexed RegulaEntry.i iters → i = iters.length + 1 →
          OneIndexed RegulaEntry.i (regulaFalsiLoop f tol n i a b fa fb x_old ep iters).2.2) := by
  intro n
  induction n with
  | zero =>
    intro i a b fa fb x_old ep iters
    simp only [regulaFalsiLoop]
    exact ⟨le_refl _, by omega, by omega, fun h _ => h⟩
  | succ k ih =>
    intro i a b fa fb x_old ep iters
    simp only [regulaFalsiLoop]
    split_ifs with hc hs
    · refine ⟨by simp, by simp, fun _ => by simp, fun hidx hi => hidx.append hi⟩
    · obtain ⟨ih1, ih2, ih3, ih4⟩ := ih (i + 1) a ((a * fb - b * fa) / (fb - fa)) fa
        (f ((a * fb - b * fa) / (fb - fa))) ((a * fb - b * fa) / (fb - fa))
        (|(a * fb - b * fa) / (fb - fa) - x_old|)
        (iters ++ [⟨i, a, b, (a * fb - b * fa) / (fb - fa),
          f ((a * fb - b * fa) / (fb - fa)), |(a * fb - b * fa) / (fb - fa) - x_old|⟩])
      simp only [List.length_append, List.length_singleton] at ih1 ih2 ih3
      refine ⟨by omega, by omega, fun _ => by omega, fun hidx hi => ?_⟩
      exact ih4 (hidx.append hi) (by simp; omega)
    · obtain ⟨ih1, ih2, ih3, ih4⟩ := ih (i + 1) ((a * fb - b * fa) / (fb - fa)) b
        (f ((a * fb - b * fa) / (fb - fa))) fb ((a * fb - b * fa) / (fb - fa))
        (|(a * fb - b * fa) / (fb - fa) - x_old|)
        (iters ++ [⟨i, a, b, (a * fb - b * fa) / (fb - fa),
          f ((a * fb - b * fa) / (fb - fa)), |(a * fb - b * fa) / (fb - fa) - x_old|⟩])
      simp only [List.length_append, List.length_singleton] at ih1 ih2 ih3
      refine ⟨by omega, by omega, fun _ => by omega, fun hidx hi => ?_⟩
      exact ih4 (hidx.append hi) (by simp; omega)

lemma secantLoop_trace_shape (f : ℚ → ℚ) (tol : ℚ) :
    ∀ (n i : ℕ) (x0 x1 xp ep : ℚ) (iters : List SecantEntry) (r e : ℚ)
      (tr : List SecantEntry),
      secantLoop f tol n i x0 x1 xp ep iters = .ok (r, e, tr) →
      iters.length ≤ tr.length
      ∧ tr.length ≤ iters.length + n
      ∧ (1 ≤ n → iters.length + 1 ≤ tr.length)
      ∧ (OneIndexed SecantEntry.i iters → i = iters.length + 1 →
          OneIndexed SecantEntry.i tr) := by
  intro n
  induction n with
  | zero =>
    intro i x0 x1 xp ep iters r e tr hok
    simp only [secantLoop] at hok
    injection hok with h
    simp only [Prod.mk.injEq] at h
    obtain ⟨-, -, rfl⟩ := h
    exact ⟨le_refl _, by omega, by omega, fun h _ => h⟩
  | succ k ih =>
    intro i x0 x1 xp ep iters r e tr hok
    simp only [secantLoop] at hok
    split_ifs at hok with hd hc
    · injection hok with h
      simp only [Prod.mk.injEq] at h
      obtain ⟨-, -, rfl⟩ := h
      refine ⟨by simp, by simp, fun _ => by simp, fun hidx hi => hidx.append hi⟩
    · obtain ⟨ih1, ih2, ih3, ih4⟩ := ih (i + 1) x1
        (x1 - f x1 * (x1 - x0) / (f x1 - f x0)) (x1 - f x1 * (x1 - x0) / (f x1 - f x0))
        (|x1 - f x1 * (x1 - x0) / (f x1 - f x0) - x1|)
        (iters ++ [⟨i, x0, x1, x1 - f x1 * (x1 - x0) / (f x1 - f x0),
          f (x1 - f x1 * (x1 - x0) / (f x1 - f x0)),
          |x1 - f x1 * (x1 - x0) / (f x1 - f x0) - x1|⟩]) r e tr hok
      simp only [List.length_append, List.length_singleton] at ih1 ih2 ih3
      refine ⟨by omega, by omega, fun _ => by omega, fun hidx hi => ?_⟩
      exact ih4 (hidx.append hi) (by simp; omega)

lemma newtonLoop_trace_shape (f df : ℚ → ℚ) (tol : ℚ) :
    ∀ (n i : ℕ) (x ep : ℚ) (iters : List NewtonEntry) (r e : ℚ)
      (tr : List NewtonEntry),
      newtonLoop f df tol n i x ep iters = .ok (r, e, tr) →
      iters.length ≤ tr.length
      ∧ tr.length ≤ iters.length + n
      ∧ (1 ≤ n → iters.length + 1 ≤ tr.length)
      ∧ (OneIndexed NewtonEntry.i iters → i = iters.length + 1 →
          OneIndexed NewtonEntry.i tr) := by
  intro n
  induction n with
  | zero =>
    intro i x ep iters r e tr hok
    simp only [newtonLoop] at hok
    injection hok with h
    simp only [Prod.mk.injEq] at h
    obtain ⟨-, -, rfl⟩ := h
    exact ⟨le_refl _, by omega, by omega, fun h _ => h⟩
  | succ k ih =>
    intro i x ep iters r e tr hok
    simp only [newtonLoop] at hok
    split_ifs at hok with hd hc
    · injection hok with h
      simp only [Prod.mk.injEq] at h
      obtain ⟨-, -, rfl⟩ := h
      refine ⟨by simp, by simp, fun _ => by simp, fun hidx hi => hidx.append hi⟩
    · obtain ⟨ih1, ih2, ih3, ih4⟩ := ih (i + 1) (x - f x / df x) (|x - f x / df x - x|)
        (iters ++ [⟨i, x, f x, df x, x - f x / df x, |x - f x / df x - x|⟩]) r e tr hok
      simp only [List.length_append, List.length_singleton] at ih1 ih2 ih3
      refine ⟨by omega, by omega, fun _ => by omega, fun hidx hi => ?_⟩
      exact ih4 (hidx.append hi) (by simp; omega)

lemma fixedPointLoop_trace_shape (g : ℚ → ℚ) (tol : ℚ) :
    ∀ (n i : ℕ) (x ep : ℚ) (iters : List FixedEntry),
      iters.length ≤ (fixedPointLoop g tol n i x ep iters).2.2.length
      ∧ (fixedPointLoop g tol n i x ep iters).2.2.length ≤ iters.length + n
      ∧ (1 ≤ n → iters.length + 1 ≤ (fixedPointLoop g tol n i x ep iters).2.2.length)
      ∧ (OneIndexed FixedEntry.i iters → i = iters.length + 1 →
          OneIndexed FixedEntry.i (fixedPointLoop g tol n i x ep iters).2.2) := by
  intro n
  induction n with
  | zero =>
    intro i x ep iters
    simp only [fixedPointLoop]
    exact ⟨le_refl _, by omega, by omega, fun h _ => h⟩
  | succ k ih =>
    intro i x ep iters
    simp only [fixedPointLoop]
    split_ifs with hc
    · refine ⟨by simp, by simp, fun _ => by simp, fun hidx hi => hidx.append hi⟩
    · obtain ⟨ih1, ih2, ih3, ih4⟩ := ih (i + 1) (g x) (|g x - x|)
        (iters ++ [⟨i, x, g x, |g x - x|⟩])
      simp only [List.length_append, List.length_singleton] at ih1 ih2 ih3
      refine ⟨by omega, by omega, fun _ => by omega, fun hidx hi => ?_⟩
      exact ih4 (hidx.append hi) (by simp; omega)

lemma modifiedSecantLoop_trace_shape (f : ℚ → ℚ) (delta tol : ℚ) :
    ∀ (n i : ℕ) (x ep : ℚ) (iters : List ModSecEntry) (r e : ℚ)
      (tr : List ModSecEntry),
      modifiedSecantLoop f delta tol n i x ep iters = .ok (r, e, tr) →
      iters.length ≤ tr.length
      ∧ tr.length ≤ iters.length + n
      ∧ (1 ≤ n → iters.length + 1 ≤ tr.length)
      ∧ (OneIndexed ModSecEntry.i iters → i = iters.length + 1 →
          OneIndexed ModSecEntry.i tr) := by
  intro n
  induction n with
  | zero =>
    intro i x ep iters r e tr hok
    simp only [modifiedSecantLoop] at hok
    injection hok with h
    simp only [Prod.mk.injEq] at h
    obtain ⟨-, -, rfl⟩ := h
    exact ⟨le_refl _, by omega, by omega, fun h _ => h⟩
  | succ k ih =>
    intro i x ep iters r e tr hok
    simp only [modifiedSecantLoop] at hok
    split_ifs at hok with hd hc
    · injection hok with h
      simp only [Prod.mk.injEq] at h
      obtain ⟨-, -, rfl⟩ := h
      refine ⟨by simp, by simp, fun _ => by simp, fun hidx hi => hidx.append hi⟩
    · obtain ⟨ih1, ih2, ih3, ih4⟩ := ih (i + 1)
        (x - delta * x * f x / (f (x + delta * x) - f x))
        (|x - delta * x * f x / (f (x + delta * x) - f x) - x|)
        (iters ++ [⟨i, x, f x, x - delta * x * f x / (f (x + delta * x) - f x),
          |x - delta * x * f x / (f (x + delta * x) - f x) - x|⟩]) r e tr hok
      simp only [List.length_append, List.length_singleton] at ih1 ih2 ih3
      refine ⟨by omega, by omega, fun _ => by omega, fun hidx hi => ?_⟩
      exact ih4 (hidx.append hi) (by simp; omega)

end ZOF

namespace ZOF


/-! ## Claims -/

/-- C1. For every function `f` and bracket `(a, b)` with `f(a)*f(b) < 0`
(and a positive tolerance and at least one allowed iteration, per the
solve-parameter data model), the root estimate returned by `bisection`
and by `regula_falsi` — whether by convergence or by iteration
exhaustion — lies within the original interval `[min(a,b), max(a,b)]`. -/
theorem root_in_original_bracket (f : ℚ → ℚ) (a b tol : ℚ) (max_iter : ℕ)
    (hbr : f a * f b < 0) (htol : 0 < tol) (hm : 0 < max_iter) :
    (∀ r e tr, bisection f a b tol max_iter = .ok (r, e, tr) →
      min a b ≤ r ∧ r ≤ max a b)
    ∧ (∀ r e tr, regula_falsi f a b tol max_iter = .ok (r, e, tr) →
      min a b ≤ r ∧ r ≤ max a b) := by
  have hguard : ¬ (f a * f b ≥ 0) := not_le.mpr hbr
  constructor
  · intro r e tr hok
    rw [bisection, if_neg hguard] at hok
    have hmem := bisectionLoop_mem f tol (min a b) (max a b) max_iter 1 a b []
      (min_le_left a b) (le_max_left a b) (min_le_right a b) (le_max_right a b)
    have heq : bisectionLoop f tol max_iter 1 a b [] = (r, e, tr) := by
      injection hok
    rw [heq] at hmem
    exact hmem
  · intro r e tr hok
    rw [regula_falsi, if_neg hguard] at hok
    have hmem := regulaFalsiLoop_mem f tol (min a b) (max a b) htol max_iter 1 a b
      (f a) (f b) a 0 []
      (min_le_left a b) (le_max_left a b) (min_le_right a b) (le_max_right a b)
      (min_le_left a b) (le_max_left a b) hbr
    have heq : regulaFalsiLoop f tol max_iter 1 a b (f a) (f b) a 0 [] = (r, e, tr) := by
      injection hok
    rw [heq] at hmem
    exact hmem

/-- Witness for C1: `f(x) = x^2 - 2` on `[1, 2]` with one allowed
iteration returns the midpoint `5/4` of the updated bracket, inside
`[1, 2]`. -/
theorem root_in_original_bracket_witness :
    min (1 : ℚ) 2 ≤ 5 / 4 ∧ (5 : ℚ) / 4 ≤ max 1 2 :=
  (root_in_original_bracket fSq 1 2 (1 / 1000) 1 (by norm_num [fSq]) (by norm_num)
    (by norm_num)).1 (5 / 4) (1 / 4) [⟨1, 1, 2, 3 / 2, 1 / 4, 1 / 2⟩]
    (by norm_num [bisection, bisectionLoop, fSq, abs])

/-- C2. For `bisection`, in exact rational arithmetic, the `err` field of
trace entry `i` is exactly half the `err` field of entry `i-1`, for every
`i ≥ 2` (here: every adjacent pair, 0-indexed), independent of `f`. -/
theorem bisection_error_halves (f : ℚ → ℚ) (a b tol : ℚ) (max_iter : ℕ)
    (r e : ℚ) (tr : List BisectEntry)
    (hok : bisection f a b tol max_iter = .ok (r, e, tr)) :
    ∀ (j : ℕ) (h : j + 1 < tr.length),
      (tr.get ⟨j + 1, h⟩).err = (tr.get ⟨j, by omega⟩).err / 2 := by
  by_cases hguard : f a * f b ≥ 0
  · rw [bisection, if_pos hguard] at hok
    exact absurd hok (by simp)
  · rw [bisection, if_neg hguard] at hok
    have heq : bisectionLoop f tol max_iter 1 a b [] = (r, e, tr) := by injection hok
    have hch := bisectionLoop_halving f tol max_iter 1 a b [] List.chain'_nil (by simp)
    rw [heq] at hch
    have hch2 : List.Chain' (fun e1 e2 => e2.err = e1.err / 2) tr := hch
    intro j h
    exact List.chain'_iff_get.mp hch2 j (by omega)

/-- Witness for C2: the two-iteration run of `bisection` on
`f(x) = x^2 - 2`, `[1, 2]` has errors `1/2, 1/4` and indeed
`1/4 = (1/2)/2`. -/
theorem bisection_error_halves_witness :
    (([⟨1, 1, 2, 3 / 2, 1 / 4, 1 / 2⟩, ⟨2, 1, 3 / 2, 5 / 4, -7 / 16, 1 / 4⟩] :
        List BisectEntry).get ⟨1, by norm_num⟩).err
      = (([⟨1, 1, 2, 3 / 2, 1 / 4, 1 / 2⟩, ⟨2, 1, 3 / 2, 5 / 4, -7 / 16, 1 / 4⟩] :
        List BisectEntry).get ⟨0, by norm_num⟩).err / 2 :=
  bisection_error_halves fSq 1 2 (1 / 1000) 2 (11 / 8) (1 / 8) _
    (by norm_num [bisection, bisectionLoop, fSq, abs]) 0 (by norm_num)

/-- C3. In `newton_raphson`, each iteration with a nonzero derivative
tests convergence against the pre-update function value `fx = f(x)`
(never against `f(x_new)`): the test is `|fx| < tol OR |x_new - x| < tol`
with `x_new = x - fx/dfx`; when it passes the call returns `x_new`
together with `err = |x_new - x|` and the trace, and when it fails the
loop continues at `x_new`. -/
theorem newton_test_pre_update (f df : ℚ → ℚ) (tol : ℚ) (fuel i : ℕ) (x ep : ℚ)
    (iters : List NewtonEntry) (hdf : df x ≠ 0) :
    (|f x| < tol ∨ |x - f x / df x - x| < tol →
      newtonLoop f df tol (fuel + 1) i x ep iters =
        .ok (x - f x / df x, |x - f x / df x - x|,
          iters ++ [⟨i, x, f x, df x, x - f x / df x, |x - f x / df x - x|⟩]))
    ∧ (¬(|f x| < tol ∨ |x - f x / df x - x| < tol) →
      newtonLoop f df tol (fuel + 1) i x ep iters =
        newtonLoop f df tol fuel (i + 1) (x - f x / df x) (|x - f x / df x - x|)
          (iters ++ [⟨i, x, f x, df x, x - f x / df x, |x - f x / df x - x|⟩])) := by
  constructor
  · intro h
    simp only [newtonLoop]
    rw [if_neg hdf, if_pos h]
  · intro h
    simp only [newtonLoop]
    rw [if_neg hdf, if_neg h]

/-- Witness for C3: at `x = 1` with `f(x) = x^2 - 2`, `df(x) = 2x`,
`tol = 1`, the step to `x_new = 3/2` has `err = 1/2 < tol`, so the call
returns `x_new` with that error even though `|f(1)| = 1` is not below
`tol`. -/
theorem newton_test_pre_update_witness :
    newtonLoop fSq dfSq 1 4 1 1 0 [] =
      .ok (3 / 2, 1 / 2, [⟨1, 1, -1, 2, 3 / 2, 1 / 2⟩]) := by
  have h := (newton_test_pre_update fSq dfSq 1 3 1 1 0 [] (by norm_num [dfSq])).1
    (by norm_num [fSq, dfSq, abs])
  norm_num [fSq, dfSq, abs] at h
  exact h

/-- C4. `bisection` and `regula_falsi` fail with the invalid-bracket
error exactly when `f(a) * f(b) ≥ 0` (including an exact root at an
endpoint), this is the only error either can produce, and the failure
carries no trace (the `Except.error` result holds only the error, the
Python `raise` at lines 36/54 firing before the loop begins). -/
theorem bracket_precondition_iff (f : ℚ → ℚ) (a b tol : ℚ) (max_iter : ℕ) :
    (bisection f a b tol max_iter = .error .invalidBracket ↔ f a * f b ≥ 0)
    ∧ (regula_falsi f a b tol max_iter = .error .invalidBracket ↔ f a * f b ≥ 0)
    ∧ (∀ e, bisection f a b tol max_iter = .error e → e = .invalidBracket)
    ∧ (∀ e, regula_falsi f a b tol max_iter = .error e → e = .invalidBracket) := by
  refine ⟨?_, ?_, ?_, ?_⟩ <;> simp only [bisection, regula_falsi] <;>
    split_ifs with h <;> simp [h]

/-- C5. For every method, every structural failure aborts the solve call
with an error and no trace (the `Except.error` results below carry no
iteration list, as the Python `raise` discards the local `iters`): an
exact-zero secant or modified-secant denominator at the seeds, an
exact-zero derivative at the seed, an invalid bracket, and a propagated
evaluator failure at the first call site of each of the six methods
(the bracket-guard evaluations of `bisection`/`regula_falsi`, the seed
evaluations of `secant`/`newton_raphson`/`fixed_point`/`modified_secant`)
each fail before any trace entry is produced. -/
theorem structural_failures_abort :
    (∀ (f : ℚ → ℚ) (x0 x1 tol : ℚ) (m : ℕ), 0 < m → f x1 - f x0 = 0 →
      secant f x0 x1 tol m = .error .zeroDenominator)
    ∧ (∀ (f df : ℚ → ℚ) (x0 tol : ℚ) (m : ℕ), 0 < m → df x0 = 0 →
      newton_raphson f df x0 tol m = .error .zeroDerivative)
    ∧ (∀ (f : ℚ → ℚ) (x0 delta tol : ℚ) (m : ℕ), 0 < m →
      f (x0 + delta * x0) - f x0 = 0 →
      modified_secant f x0 delta tol m = .error .zeroDenominator)
    ∧ (∀ (f : ℚ → ℚ) (a b tol : ℚ) (m : ℕ), f a * f b ≥ 0 →
      bisection f a b tol m = .error .invalidBracket
        ∧ regula_falsi f a b tol m = .error .invalidBracket)
    ∧ (∀ (f : ℚ → Option ℚ) (x0 x1 tol : ℚ) (m : ℕ), 0 < m → f x0 = none →
      secantE f x0 x1 tol m = .error .evalError)
    ∧ (∀ (f : ℚ → Option ℚ) (v x0 x1 tol : ℚ) (m : ℕ), 0 < m → f x0 = some v →
      f x1 = none → secantE f x0 x1 tol m = .error .evalError)
    ∧ (∀ (f df : ℚ → Option ℚ) (x0 tol : ℚ) (m : ℕ), 0 < m → f x0 = none →
      newtonE f df x0 tol m = .error .evalError)
    ∧ (∀ (f : ℚ → Option ℚ) (a b tol : ℚ) (m : ℕ), f a = none →
      bisectionE f a b tol m = .error .evalError)
    ∧ (∀ (f : ℚ → Option ℚ) (v a b tol : ℚ) (m : ℕ), f a = some v → f b = none →
      bisectionE f a b tol m = .error .evalError)
    ∧ (∀ (f : ℚ → Option ℚ) (a b tol : ℚ) (m : ℕ), f a = none →
      regula_falsiE f a b tol m = .error .evalError)
    ∧ (∀ (f : ℚ → Option ℚ) (v a b tol : ℚ) (m : ℕ), f a = some v → f b = none →
      regula_falsiE f a b tol m = .error .evalError)
    ∧ (∀ (g : ℚ → Option ℚ) (x0 tol : ℚ) (m : ℕ), 0 < m → g x0 = none →
      fixed_pointE g x0 tol m = .error .evalError)
    ∧ (∀ (f : ℚ → Option ℚ) (x0 delta tol : ℚ) (m : ℕ), 0 < m → f x0 = none →
      modified_secantE f x0 delta tol m = .error .evalError)
    ∧ (∀ (f : ℚ → Option ℚ) (v x0 delta tol : ℚ) (m : ℕ), 0 < m → f x0 = some v →
      f (x0 + delta * x0) = none →
      modified_secantE f x0 delta tol m = .error .evalError) := by
  refine ⟨?_, ?_, ?_, ?_, ?_, ?_, ?_, ?_, ?_, ?_, ?_, ?_, ?_, ?_⟩
  · intro f x0 x1 tol m hm h
    obtain ⟨k, rfl⟩ : ∃ k, m = k + 1 := ⟨m - 1, by omega⟩
    simp only [secant, secantLoop]
    rw [if_pos h]
  · intro f df x0 tol m hm h
    obtain ⟨k, rfl⟩ : ∃ k, m = k + 1 := ⟨m - 1, by omega⟩
    simp only [newton_raphson, newtonLoop]
    rw [if_pos h]
  · intro f x0 delta tol m hm h
    obtain ⟨k, rfl⟩ : ∃ k, m = k + 1 := ⟨m - 1, by omega⟩
    simp only [modified_secant, modifiedSecantLoop]
    rw [if_pos h]
  · intro f a b tol m h
    constructor <;> simp only [bisection, regula_falsi] <;> rw [if_pos h]
  · intro f x0 x1 tol m hm h
    obtain ⟨k, rfl⟩ : ∃ k, m = k + 1 := ⟨m - 1, by omega⟩
    simp [secantE, secantELoop, h]
  · intro f v x0 x1 tol m hm h h2
    obtain ⟨k, rfl⟩ : ∃ k, m = k + 1 := ⟨m - 1, by omega⟩
    simp [secantE, secantELoop, h, h2]
  · intro f df x0 tol m hm h
    obtain ⟨k, rfl⟩ : ∃ k, m = k + 1 := ⟨m - 1, by omega⟩
    simp [newtonE, newtonELoop, h]
  · intro f a b tol m h
    simp [bisectionE, h]
  · intro f v a b tol m h h2
    simp [bisectionE, h, h2]
  · intro f a b tol m h
    simp [regula_falsiE, h]
  · intro f v a b tol m h h2
    simp [regula_falsiE, h, h2]
  · intro g x0 tol m hm h
    obtain ⟨k, rfl⟩ : ∃ k, m = k + 1 := ⟨m - 1, by omega⟩
    simp [fixed_pointE, fixedPointELoop, h]
  · intro f x0 delta tol m hm h
    obtain ⟨k, rfl⟩ : ∃ k, m = k + 1 := ⟨m - 1, by omega⟩
    simp [modified_secantE, modifiedSecantELoop, h]
  · intro f v x0 delta tol m hm h h2
    obtain ⟨k, rfl⟩ : ∃ k, m = k + 1 := ⟨m - 1, by omega⟩
    simp [modified_secantE, modifiedSecantELoop, h, h2]

/-- Witness for C5: concrete structural failures — equal secant seed
values, zero derivative at 0, non-bracketing pair, and an evaluator
failing everywhere fed to the fallible variant of every method. -/
theorem structural_failures_abort_witness :
    secant fSq 1 (-1) (1 / 1000000) 50 = .error .zeroDenominator
    ∧ newton_raphson fSq dfSq 0 (1 / 1000000) 50 = .error .zeroDerivative
    ∧ bisection fSq 2 3 (1 / 1000000) 50 = .error .invalidBracket
    ∧ secantE (fun _ => none) 0 1 (1 / 1000000) 50 = .error .evalError
    ∧ newtonE (fun _ => none) (fun _ => none) 0 (1 / 1000000) 50 = .error .evalError
    ∧ bisectionE (fun _ => none) 1 2 (1 / 1000000) 50 = .error .evalError
    ∧ regula_falsiE (fun _ => none) 1 2 (1 / 1000000) 50 = .error .evalError
    ∧ fixed_pointE (fun _ => none) 0 (1 / 1000000) 50 = .error .evalError
    ∧ modified_secantE (fun _ => none) 1 (1 / 2) (1 / 1000000) 50 = .error .evalError := by
  refine ⟨?_, ?_, ?_, ?_, ?_, ?_, ?_, ?_, ?_⟩
  · exact structural_failures_abort.1 fSq 1 (-1) _ 50 (by norm_num) (by norm_num [fSq])
  · exact structural_failures_abort.2.1 fSq dfSq 0 _ 50 (by norm_num) (by norm_num [dfSq])
  · exact (structural_failures_abort.2.2.2.1 fSq 2 3 _ 50 (by norm_num [fSq])).1
  · exact structural_failures_abort.2.2.2.2.1 _ 0 1 _ 50 (by norm_num) rfl
  · exact structural_failures_abort.2.2.2.2.2.2.1 _ _ 0 _ 50 (by norm_num) rfl
  · exact structural_failures_abort.2.2.2.2.2.2.2.1 _ 1 2 _ 50 rfl
  · exact structural_failures_abort.2.2.2.2.2.2.2.2.2.1 _ 1 2 _ 50 rfl
  · exact structural_failures_abort.2.2.2.2.2.2.2.2.2.2.2.1 _ 0 _ 50 (by norm_num) rfl
  · exact structural_failures_abort.2.2.2.2.2.2.2.2.2.2.2.2.1 _ 1 (1 / 2) _ 50
      (by norm_num) rfl

/-- C6. For all six methods, with `max_iterations > 0`, every normally
returning call yields a trace of length between 1 and `max_iterations`
whose rows are numbered `1..k` in insertion order. -/
theorem trace_length_and_indexing (max_iter : ℕ) (hm : 0 < max_iter) :
    (∀ (f : ℚ → ℚ) (a b tol r e : ℚ) (tr : List BisectEntry),
      bisection f a b tol max_iter = .ok (r, e, tr) →
      1 ≤ tr.length ∧ tr.length ≤ max_iter ∧ OneIndexed BisectEntry.i tr)
    ∧ (∀ (f : ℚ → ℚ) (a b tol r e : ℚ) (tr : List RegulaEntry),
      regula_falsi f a b tol max_iter = .ok (r, e, tr) →
      1 ≤ tr.length ∧ tr.length ≤ max_iter ∧ OneIndexed RegulaEntry.i tr)
    ∧ (∀ (f : ℚ → ℚ) (x0 x1 tol r e : ℚ) (tr : List SecantEntry),
      secant f x0 x1 tol max_iter = .ok (r, e, tr) →
      1 ≤ tr.length ∧ tr.length ≤ max_iter ∧ OneIndexed SecantEntry.i tr)
    ∧ (∀ (f df : ℚ → ℚ) (x0 tol r e : ℚ) (tr : List NewtonEntry),
      newton_raphson f df x0 tol max_iter = .ok (r, e, tr) →
      1 ≤ tr.length ∧ tr.length ≤ max_iter ∧ OneIndexed NewtonEntry.i tr)
    ∧ (∀ (g : ℚ → ℚ) (x0 tol r e : ℚ) (tr : List FixedEntry),
      fixed_point g x0 tol max_iter = (r, e, tr) →
      1 ≤ tr.length ∧ tr.length ≤ max_iter ∧ OneIndexed FixedEntry.i tr)
    ∧ (∀ (f : ℚ → ℚ) (x0 delta tol r e : ℚ) (tr : List ModSecEntry),
      modified_secant f x0 delta tol max_iter = .ok (r, e, tr) →
      1 ≤ tr.length ∧ tr.length ≤ max_iter ∧ OneIndexed ModSecEntry.i tr) := by
  refine ⟨?_, ?_, ?_, ?_, ?_, ?_⟩
  · intro f a b tol r e tr hok
    by_cases hg : f a * f b ≥ 0
    · rw [bisection, if_pos hg] at hok
      simp at hok
    · rw [bisection, if_neg hg] at hok
      have heq : bisectionLoop f tol max_iter 1 a b [] = (r, e, tr) := by injection hok
      obtain ⟨h1, h2, h3, h4⟩ := bisectionLoop_trace_shape f tol max_iter 1 a b []
      rw [heq] at h1 h2 h3 h4
      dsimp only at h1 h2 h3 h4
      simp only [List.length_nil] at h2 h3
      exact ⟨by omega, by omega, h4 (fun j h => absurd h (by simp)) rfl⟩
  · intro f a b tol r e tr hok
    by_cases hg : f a * f b ≥ 0
    · rw [regula_falsi, if_pos hg] at hok
      simp at hok
    · rw [regula_falsi, if_neg hg] at hok
      have heq : regulaFalsiLoop f tol max_iter 1 a b (f a) (f b) a 0 [] = (r, e, tr) := by
        injection hok
      obtain ⟨h1, h2, h3, h4⟩ :=
        regulaFalsiLoop_trace_shape f tol max_iter 1 a b (f a) (f b) a 0 []
      rw [heq] at h1 h2 h3 h4
      dsimp only at h1 h2 h3 h4
      simp only [List.length_nil] at h2 h3
      exact ⟨by omega, by omega, h4 (fun j h => absurd h (by simp)) rfl⟩
  · intro f x0 x1 tol r e tr hok
    obtain ⟨h1, h2, h3, h4⟩ := secantLoop_trace_shape f tol max_iter 1 x0 x1 0 0 [] r e tr hok
    simp only [List.length_nil] at h2 h3
    exact ⟨by omega, by omega, h4 (fun j h => absurd h (by simp)) rfl⟩
  · intro f df x0 tol r e tr hok
    obtain ⟨h1, h2, h3, h4⟩ := newtonLoop_trace_shape f df tol max_iter 1 x0 0 [] r e tr hok
    simp only [List.length_nil] at h2 h3
    exact ⟨by omega, by omega, h4 (fun j h => absurd h (by simp)) rfl⟩
  · intro g x0 tol r e tr hok
    have heq : fixedPointLoop g tol max_iter 1 x0 0 [] = (r, e, tr) := hok
    obtain ⟨h1, h2, h3, h4⟩ := fixedPointLoop_trace_shape g tol max_iter 1 x0 0 []
    rw [heq] at h1 h2 h3 h4
    dsimp only at h1 h2 h3 h4
    simp only [List.length_nil] at h2 h3
    exact ⟨by omega, by omega, h4 (fun j h => absurd h (by simp)) rfl⟩
  · intro f x0 delta tol r e tr hok
    obtain ⟨h1, h2, h3, h4⟩ :=
      modifiedSecantLoop_trace_shape f delta tol max_iter 1 x0 0 [] r e tr hok
    simp only [List.length_nil] at h2 h3
    exact ⟨by omega, by omega, h4 (fun j h => absurd h (by simp)) rfl⟩

/-- Witness for C6: the one-iteration bisection run on `f(x) = x^2 - 2`,
`[1, 2]` has trace length 1 within `[1, 1]` and index 1. -/
theorem trace_length_and_indexing_witness :
    1 ≤ ([⟨1, 1, 2, 3 / 2, 1 / 4, 1 / 2⟩] : List BisectEntry).length
    ∧ ([⟨1, 1, 2, 3 / 2, 1 / 4, 1 / 2⟩] : List BisectEntry).length ≤ 1
    ∧ OneIndexed BisectEntry.i [⟨1, 1, 2, 3 / 2, 1 / 4, 1 / 2⟩] :=
  (trace_length_and_indexing 1 (by norm_num)).1 fSq 1 2 (1 / 1000) (5 / 4) (1 / 4) _
    (by norm_num [bisection, bisectionLoop, fSq, abs])

/-- C9. `modified_secant` with seed `x0 = 0` fails with the
zero-denominator error on the first iteration for every `f` and every
`delta`, because the perturbation `delta*x` is zero so
`f(x + delta*x) - f(x) = 0`. -/
theorem modified_secant_zero_seed (f : ℚ → ℚ) (delta tol : ℚ) (max_iter : ℕ)
    (hm : 0 < max_iter) :
    modified_secant f 0 delta tol max_iter = .error .zeroDenominator := by
  obtain ⟨k, rfl⟩ : ∃ k, max_iter = k + 1 := ⟨max_iter - 1, by omega⟩
  unfold modified_secant
  simp [modifiedSecantLoop]

/-- Witness for C9: seed 0 with a nonzero `delta`. -/
theorem modified_secant_zero_seed_witness :
    modified_secant fSq 0 (1 / 1000) (1 / 1000000) 50 = .error .zeroDenominator :=
  modified_secant_zero_seed fSq (1 / 1000) (1 / 1000000) 50 (by norm_num)


lemma bisectionLoop_bracket_inv (f : ℚ → ℚ) (tol : ℚ) (htol : 0 < tol) :
    ∀ (n i : ℕ) (a b : ℚ) (iters : List BisectEntry),
      f a * f b < 0 →
      (∀ e ∈ iters, f e.a * f e.b < 0) →
      ∀ e ∈ (bisectionLoop f tol n i a b iters).2.2, f e.a * f e.b < 0 := by
  intro n
  induction n with
  | zero =>
    intro i a b iters hab hmem
    simpa only [bisectionLoop] using hmem
  | succ k ih =>
    intro i a b iters hab hmem
    simp only [bisectionLoop]
    have hmem' : ∀ e ∈ iters ++ [⟨i, a, b, (a + b) / 2, f ((a + b) / 2), |b - a| / 2⟩],
        f e.a * f e.b < 0 := by
      intro e he
      rcases List.mem_append.mp he with h | h
      · exact hmem e h
      · simp only [List.mem_singleton] at h
        subst h
        exact hab
    split_ifs with hc hs
    · exact hmem'
    · exact ih (i + 1) a ((a + b) / 2) _ hs hmem'
    · have hfc : f ((a + b) / 2) ≠ 0 := by
        intro h0
        push_neg at hc
        rw [h0, abs_zero] at hc
        linarith [hc.1]
      exact ih (i + 1) ((a + b) / 2) b _ (sign_carries hab hs hfc) hmem'

lemma regulaFalsiLoop_bracket_inv (f : ℚ → ℚ) (tol : ℚ) (htol : 0 < tol) :
    ∀ (n i : ℕ) (a b fa fb x_old ep : ℚ) (iters : List RegulaEntry),
      fa = f a → fb = f b → fa * fb < 0 →
      (∀ e ∈ iters, f e.a * f e.b < 0) →
      ∀ e ∈ (regulaFalsiLoop f tol n i a b fa fb x_old ep iters).2.2,
        f e.a * f e.b < 0 := by
  intro n
  induction n with
  | zero =>
    intro i a b fa fb x_old ep iters hfa hfb hab hmem
    simpa only [regulaFalsiLoop] using hmem
  | succ k ih =>
    intro i a b fa fb x_old ep iters hfa hfb hab hmem
    simp only [regulaFalsiLoop]
    have hmem' : ∀ e ∈ iters ++ [⟨i, a, b, (a * fb - b * fa) / (fb - fa),
        f ((a * fb - b * fa) / (fb - fa)), |(a * fb - b * fa) / (fb - fa) - x_old|⟩],
        f e.a * f e.b < 0 := by
      intro e he
      rcases List.mem_append.mp he with h | h
      · exact hmem e h
      · simp only [List.mem_singleton] at h
        subst h
        show f a * f b < 0
        rw [← hfa, ← hfb]
        exact hab
    split_ifs with hc hs
    · exact hmem'
    · exact ih (i + 1) a _ fa _ _ _ _ hfa rfl hs hmem'
    · have hfx : f ((a * fb - b * fa) / (fb - fa)) ≠ 0 := by
        intro h0
        push_neg at hc
        rw [h0, abs_zero] at hc
        linarith [hc.1]
      exact ih (i + 1) _ b _ fb _ _ _ rfl hfb (sign_carries hab hs hfx) hmem'

/-- C8. In `bisection` and `regula_falsi`, for every `tol > 0`, the
bracket sign condition `f(a)*f(b) < 0` holds at the start of every
iteration (each trace row records the bracket `a, b` current at the start
of its iteration): the endpoint-replacement rule preserves the sign
change because an iterate with `f`-value exactly zero triggers the
`|f| < tol` return before the bracket is updated. -/
theorem bracket_sign_invariant (f : ℚ → ℚ) (a b tol : ℚ) (max_iter : ℕ)
    (htol : 0 < tol) (hbr : f a * f b < 0) :
    (∀ r e tr, bisection f a b tol max_iter = .ok (r, e, tr) →
      ∀ en ∈ tr, f en.a * f en.b < 0)
    ∧ (∀ r e tr, regula_falsi f a b tol max_iter = .ok (r, e, tr) →
      ∀ en ∈ tr, f en.a * f en.b < 0) := by
  have hguard : ¬ (f a * f b ≥ 0) := not_le.mpr hbr
  constructor
  · intro r e tr hok
    rw [bisection, if_neg hguard] at hok
    have heq : bisectionLoop f tol max_iter 1 a b [] = (r, e, tr) := by injection hok
    have h := bisectionLoop_bracket_inv f tol htol max_iter 1 a b [] hbr (by simp)
    rw [heq] at h
    exact h
  · intro r e tr hok
    rw [regula_falsi, if_neg hguard] at hok
    have heq : regulaFalsiLoop f tol max_iter 1 a b (f a) (f b) a 0 [] = (r, e, tr) := by
      injection hok
    have h := regulaFalsiLoop_bracket_inv f tol htol max_iter 1 a b (f a) (f b) a 0 []
      rfl rfl hbr (by simp)
    rw [heq] at h
    exact h

/-- Witness for C8: the single recorded bracket `[1, 2]` of the concrete
bisection run still satisfies the sign condition. -/
theorem bracket_sign_invariant_witness :
    fSq (1 : ℚ) * fSq 2 < 0 :=
  (bracket_sign_invariant fSq 1 2 (1 / 1000) 1 (by norm_num) (by norm_num [fSq])).1
    (5 / 4) (1 / 4) [⟨1, 1, 2, 3 / 2, 1 / 4, 1 / 2⟩]
    (by norm_num [bisection, bisectionLoop, fSq, abs])
    ⟨1, 1, 2, 3 / 2, 1 / 4, 1 / 2⟩ (by simp)

lemma bisectionWebLoop_eq (f : ℚ → ℚ) (tol : ℚ) :
    ∀ (n i : ℕ) (a b : ℚ) (iters : List BisectEntry),
      bisectionWebLoop f tol n i a b iters = (bisectionLoop f tol n i a b iters).2.2 := by
  intro n
  induction n with
  | zero =>
    intro i a b iters
    simp only [bisectionWebLoop, bisectionLoop]
  | succ k ih =>
    intro i a b iters
    simp only [bisectionWebLoop, bisectionLoop]
    split_ifs with hc hs
    · rfl
    · exact ih _ _ _ _
    · exact ih _ _ _ _

lemma regulaFalsiWebLoop_eq (f : ℚ → ℚ) (tol : ℚ) :
    ∀ (n i : ℕ) (a b fa fb x_old ep : ℚ) (iters : List RegulaEntry),
      regulaFalsiWebLoop f tol n i a b fa fb x_old iters =
        (regulaFalsiLoop f tol n i a b fa fb x_old ep iters).2.2 := by
  intro n
  induction n with
  | zero =>
    intro i a b fa fb x_old ep iters
    simp only [regulaFalsiWebLoop, regulaFalsiLoop]
  | succ k ih =>
    intro i a b fa fb x_old ep iters
    simp only [regulaFalsiWebLoop, regulaFalsiLoop]
    split_ifs with hc hs
    · rfl
    · exact ih _ _ _ _ _ _ _ _
    · exact ih _ _ _ _ _ _ _ _

lemma secantWebLoop_eq (f : ℚ → ℚ) (tol : ℚ) :
    ∀ (n i : ℕ) (x0 x1 xp ep : ℚ) (iters : List SecantEntry),
      secantWebLoop f tol n i x0 x1 iters =
        match secantLoop f tol n i x0 x1 xp ep iters with
        | .ok (_, _, tr) => .ok tr
        | .error _ => .error "Zero denominator in secant update." := by
  intro n
  induction n with
  | zero =>
    intro i x0 x1 xp ep iters
    simp only [secantWebLoop, secantLoop]
  | succ k ih =>
    intro i x0 x1 xp ep iters
    simp only [secantWebLoop, secantLoop]
    split_ifs with hd hc
    · rfl
    · rfl
    · exact ih _ _ _ _ _ _

lemma newtonWebLoop_eq (f df : ℚ → ℚ) (tol : ℚ) :
    ∀ (n i : ℕ) (x ep : ℚ) (iters : List NewtonEntry),
      newtonWebLoop f df tol n i x iters =
        match newtonLoop f df tol n i x ep iters with
        | .ok (_, _, tr) => .ok tr
        | .error _ => .error "Derivative is zero; Newton method fails." := by
  intro n
  induction n with
  | zero =>
    intro i x ep iters
    simp only [newtonWebLoop, newtonLoop]
  | succ k ih =>
    intro i x ep iters
    simp only [newtonWebLoop, newtonLoop]
    split_ifs with hd hc
    · rfl
    · rfl
    · exact ih _ _ _ _

lemma fixedPointWebLoop_eq (g : ℚ → ℚ) (tol : ℚ) :
    ∀ (n i : ℕ) (x ep : ℚ) (iters : List FixedEntry),
      fixedPointWebLoop g tol n i x iters = (fixedPointLoop g tol n i x ep iters).2.2 := by
  intro n
  induction n with
  | zero =>
    intro i x ep iters
    simp only [fixedPointWebLoop, fixedPointLoop]
  | succ k ih =>
    intro i x ep iters
    simp only [fixedPointWebLoop, fixedPointLoop]
    split_ifs with hc
    · rfl
    · exact ih _ _ _ _

lemma modifiedSecantWebLoop_eq (f : ℚ → ℚ) (delta tol : ℚ) :
    ∀ (n i : ℕ) (x ep : ℚ) (iters : List ModSecEntry),
      modifiedSecantWebLoop f delta tol n i x iters =
        match modifiedSecantLoop f delta tol n i x ep iters with
        | .ok (_, _, tr) => .ok tr
        | .error _ => .error "Zero denominator in modified secant (bad delta)." := by
  intro n
  induction n with
  | zero =>
    intro i x ep iters
    simp only [modifiedSecantWebLoop, modifiedSecantLoop]
  | succ k ih =>
    intro i x ep iters
    simp only [modifiedSecantWebLoop, modifiedSecantLoop]
    split_ifs with hd hc
    · rfl
    · rfl
    · exact ih _ _ _ _

/-- C10. Each of the six web wrappers in `app.py` is behaviourally
equivalent to the corresponding CLI function of `ZOF_CLI.py`: on
identical inputs the wrapper's iteration list is exactly the CLI trace
(the same sequence of numeric iteration values), and the wrapper returns
`(None, error-message)` exactly in the cases where the CLI function
raises a structural error. -/
theorem web_cli_equivalence :
    (∀ (f : ℚ → ℚ) (a b tol : ℚ) (m : ℕ),
      bisection_web f a b tol m =
        match bisection f a b tol m with
        | .ok (_, _, tr) => (some tr, none)
        | .error _ => (none, some "f(a) and f(b) must have opposite signs."))
    ∧ (∀ (f : ℚ → ℚ) (a b tol : ℚ) (m : ℕ),
      regula_falsi_web f a b tol m =
        match regula_falsi f a b tol m with
        | .ok (_, _, tr) => (some tr, none)
        | .error _ => (none, some "f(a) and f(b) must have opposite signs."))
    ∧ (∀ (f : ℚ → ℚ) (x0 x1 tol : ℚ) (m : ℕ),
      secant_web f x0 x1 tol m =
        match secant f x0 x1 tol m with
        | .ok (_, _, tr) => (some tr, none)
        | .error _ => (none, some "Zero denominator in secant update."))
    ∧ (∀ (f df : ℚ → ℚ) (x0 tol : ℚ) (m : ℕ),
      newton_web f df x0 tol m =
        match newton_raphson f df x0 tol m with
        | .ok (_, _, tr) => (some tr, none)
        | .error _ => (none, some "Derivative is zero; Newton method fails."))
    ∧ (∀ (g : ℚ → ℚ) (x0 tol : ℚ) (m : ℕ),
      fixed_point_web g x0 tol m = (some (fixed_point g x0 tol m).2.2, none))
    ∧ (∀ (f : ℚ → ℚ) (x0 delta tol : ℚ) (m : ℕ),
      modified_secant_web f x0 delta tol m =
        match modified_secant f x0 delta tol m with
        | .ok (_, _, tr) => (some tr, none)
        | .error _ => (none, some "Zero denominator in modified secant (bad delta).")) := by
  refine ⟨?_, ?_, ?_, ?_, ?_, ?_⟩
  · intro f a b tol m
    simp only [bisection_web, bisection]
    split_ifs with h
    · rfl
    · rw [bisectionWebLoop_eq]
  · intro f a b tol m
    simp only [regula_falsi_web, regula_falsi]
    split_ifs with h
    · rfl
    · rw [regulaFalsiWebLoop_eq f tol m 1 a b (f a) (f b) a 0]
  · intro f x0 x1 tol m
    simp only [secant_web, secant]
    rw [secantWebLoop_eq f tol m 1 x0 x1 0 0]
    rcases secantLoop f tol m 1 x0 x1 0 0 [] with e | ⟨r, e2, tr⟩ <;> rfl
  · intro f df x0 tol m
    simp only [newton_web, newton_raphson]
    rw [newtonWebLoop_eq f df tol m 1 x0 0]
    rcases newtonLoop f df tol m 1 x0 0 [] with e | ⟨r, e2, tr⟩ <;> rfl
  · intro g x0 tol m
    simp only [fixed_point_web, fixed_point]
    rw [fixedPointWebLoop_eq g tol m 1 x0 0]
  · intro f x0 delta tol m
    simp only [modified_secant_web, modified_secant]
    rw [modifiedSecantWebLoop_eq f delta tol m 1 x0 0]
    rcases modifiedSecantLoop f delta tol m 1 x0 0 [] with e | ⟨r, e2, tr⟩ <;> rfl

lemma bisectionLogLoop_count (f : ℚ → ℚ) (tol : ℚ) :
    ∀ (n i : ℕ) (a b : ℚ) (iters : List BisectEntry) (log : List ℚ),
      (bisectionLogLoop f tol n i a b iters log).2.length + 2 * iters.length ≤
        log.length + 2 * ((bisectionLogLoop f tol n i a b iters log).1.2.2).length := by
  intro n
  induction n with
  | zero =>
    intro i a b iters log
    simp only [bisectionLogLoop]
    omega
  | succ k ih =>
    intro i a b iters log
    simp only [bisectionLogLoop]
    split_ifs with hc hs
    · simp only [List.length_append, List.length_singleton]
      omega
    · have := ih (i + 1) a ((a + b) / 2)
        (iters ++ [⟨i, a, b, (a + b) / 2, f ((a + b) / 2), |b - a| / 2⟩])
        (log ++ [(a + b) / 2] ++ [a])
      simp only [List.length_append, List.length_singleton] at this ⊢
      omega
    · have := ih (i + 1) ((a + b) / 2) b
        (iters ++ [⟨i, a, b, (a + b) / 2, f ((a + b) / 2), |b - a| / 2⟩])
        (log ++ [(a + b) / 2] ++ [a])
      simp only [List.length_append, List.length_singleton] at this ⊢
      omega

lemma regulaFalsiLogLoop_count (f : ℚ → ℚ) (tol : ℚ) :
    ∀ (n i : ℕ) (a b fa fb x_old ep : ℚ) (iters : List RegulaEntry) (log : List ℚ),
      (regulaFalsiLogLoop f tol n i a b fa fb x_old ep iters log).2.length + iters.length =
        log.length + ((regulaFalsiLogLoop f tol n i a b fa fb x_old ep iters log).1.2.2).length := by
  intro n
  induction n with
  | zero =>
    intro i a b fa fb x_old ep iters log
    simp only [regulaFalsiLogLoop]
  | succ k ih =>
    intro i a b fa fb x_old ep iters log
    simp only [regulaFalsiLogLoop]
    split_ifs with hc hs
    · simp only [List.length_append, List.length_singleton]
      omega
    · have := ih (i + 1) a ((a * fb - b * fa) / (fb - fa)) fa
        (f ((a * fb - b * fa) / (fb - fa))) ((a * fb - b * fa) / (fb - fa))
        (|(a * fb - b * fa) / (fb - fa) - x_old|)
        (iters ++ [⟨i, a, b, (a * fb - b * fa) / (fb - fa),
          f ((a * fb - b * fa) / (fb - fa)), |(a * fb - b * fa) / (fb - fa) - x_old|⟩])
        (log ++ [(a * fb - b * fa) / (fb - fa)])
      simp only [List.length_append, List.length_singleton] at this ⊢
      omega
    · have := ih (i + 1) ((a * fb - b * fa) / (fb - fa)) b
        (f ((a * fb - b * fa) / (fb - fa))) fb ((a * fb - b * fa) / (fb - fa))
        (|(a * fb - b * fa) / (fb - fa) - x_old|)
        (iters ++ [⟨i, a, b, (a * fb - b * fa) / (fb - fa),
          f ((a * fb - b * fa) / (fb - fa)), |(a * fb - b * fa) / (fb - fa) - x_old|⟩])
        (log ++ [(a * fb - b * fa) / (fb - fa)])
      simp only [List.length_append, List.length_singleton] at this ⊢
      omega

lemma secantLogLoop_count (f : ℚ → ℚ) (tol : ℚ) :
    ∀ (n i : ℕ) (x0 x1 xp ep : ℚ) (iters : List SecantEntry) (log : List ℚ)
      (r e : ℚ) (tr : List SecantEntry) (log2 : List ℚ),
      secantLogLoop f tol n i x0 x1 xp ep iters log = (.ok (r, e, tr), log2) →
      log2.length + 4 * iters.length = log.length + 4 * tr.length := by
  intro n
  induction n with
  | zero =>
    intro i x0 x1 xp ep iters log r e tr log2 hok
    simp only [secantLogLoop, Prod.mk.injEq, Except.ok.injEq] at hok
    obtain ⟨⟨-, -, rfl⟩, rfl⟩ := hok
    omega
  | succ k ih =>
    intro i x0 x1 xp ep iters log r e tr log2 hok
    simp only [secantLogLoop] at hok
    split_ifs at hok with hd hc
    · exact absurd hok (by simp)
    · simp only [Prod.mk.injEq, Except.ok.injEq] at hok
      obtain ⟨⟨-, -, rfl⟩, rfl⟩ := hok
      simp only [List.length_append, List.length_cons, List.length_singleton, List.length_nil]
      omega
    · have := ih (i + 1) x1 (x1 - f x1 * (x1 - x0) / (f x1 - f x0))
        (x1 - f x1 * (x1 - x0) / (f x1 - f x0))
        (|x1 - f x1 * (x1 - x0) / (f x1 - f x0) - x1|)
        (iters ++ [⟨i, x0, x1, x1 - f x1 * (x1 - x0) / (f x1 - f x0),
          f (x1 - f x1 * (x1 - x0) / (f x1 - f x0)),
          |x1 - f x1 * (x1 - x0) / (f x1 - f x0) - x1|⟩])
        (log ++ [x0, x1] ++ [x1 - f x1 * (x1 - x0) / (f x1 - f x0),
          x1 - f x1 * (x1 - x0) / (f x1 - f x0)])
        r e tr log2 hok
      simp only [List.length_append, List.length_cons, List.length_singleton, List.length_nil] at this
      omega

lemma newtonLogLoop_count (f df : ℚ → ℚ) (tol : ℚ) :
    ∀ (n i : ℕ) (x ep : ℚ) (iters : List NewtonEntry) (log : List ℚ)
      (r e : ℚ) (tr : List NewtonEntry) (log2 : List ℚ),
      newtonLogLoop f df tol n i x ep iters log = (.ok (r, e, tr), log2) →
      log2.length + 2 * iters.length = log.length + 2 * tr.length := by
  intro n
  induction n with
  | zero =>
    intro i x ep iters log r e tr log2 hok
    simp only [newtonLogLoop, Prod.mk.injEq, Except.ok.injEq] at hok
    obtain ⟨⟨-, -, rfl⟩, rfl⟩ := hok
    omega
  | succ k ih =>
    intro i x ep iters log r e tr log2 hok
    simp only [newtonLogLoop] at hok
    split_ifs at hok with hd hc
    · exact absurd hok (by simp)
    · simp only [Prod.mk.injEq, Except.ok.injEq] at hok
      obtain ⟨⟨-, -, rfl⟩, rfl⟩ := hok
      simp only [List.length_append, List.length_cons, List.length_singleton, List.length_nil]
      omega
    · have := ih (i + 1) (x - f x / df x) (|x - f x / df x - x|)
        (iters ++ [⟨i, x, f x, df x, x - f x / df x, |x - f x / df x - x|⟩])
        (log ++ [x, x]) r e tr log2 hok
      simp only [List.length_append, List.length_cons, List.length_singleton, List.length_nil] at this
      omega

lemma fixedPointLogLoop_count (g : ℚ → ℚ) (tol : ℚ) :
    ∀ (n i : ℕ) (x ep : ℚ) (iters : List FixedEntry) (log : List ℚ),
      (fixedPointLogLoop g tol n i x ep iters log).2.length + iters.length =
        log.length + ((fixedPointLogLoop g tol n i x ep iters log).1.2.2).length := by
  intro n
  induction n with
  | zero =>
    intro i x ep iters log
    simp only [fixedPointLogLoop]
  | succ k ih =>
    intro i x ep iters log
    simp only [fixedPointLogLoop]
    split_ifs with hc
    · simp only [List.length_append, List.length_singleton]
      omega
    · have := ih (i + 1) (g x) (|g x - x|) (iters ++ [⟨i, x, g x, |g x - x|⟩])
        (log ++ [x])
      simp only [List.length_append, List.length_singleton] at this ⊢
      omega

lemma modifiedSecantLogLoop_count (f : ℚ → ℚ) (delta tol : ℚ) :
    ∀ (n i : ℕ) (x ep : ℚ) (iters : List ModSecEntry) (log : List ℚ)
      (r e : ℚ) (tr : List ModSecEntry) (log2 : List ℚ),
      modifiedSecantLogLoop f delta tol n i x ep iters log = (.ok (r, e, tr), log2) →
      log2.length + 2 * iters.length = log.length + 2 * tr.length := by
  intro n
  induction n with
  | zero =>
    intro i x ep iters log r e tr log2 hok
    simp only [modifiedSecantLogLoop, Prod.mk.injEq, Except.ok.injEq] at hok
    obtain ⟨⟨-, -, rfl⟩, rfl⟩ := hok
    omega
  | succ k ih =>
    intro i x ep iters log r e tr log2 hok
    simp only [modifiedSecantLogLoop] at hok
    split_ifs at hok with hd hc
    · exact absurd hok (by simp)
    · simp only [Prod.mk.injEq, Except.ok.injEq] at hok
      obtain ⟨⟨-, -, rfl⟩, rfl⟩ := hok
      simp only [List.length_append, List.length_cons, List.length_singleton, List.length_nil]
      omega
    · have := ih (i + 1) (x - delta * x * f x / (f (x + delta * x) - f x))
        (|x - delta * x * f x / (f (x + delta * x) - f x) - x|)
        (iters ++ [⟨i, x, f x, x - delta * x * f x / (f (x + delta * x) - f x),
          |x - delta * x * f x / (f (x + delta * x) - f x) - x|⟩])
        (log ++ [x, x + delta * x]) r e tr log2 hok
      simp only [List.length_append, List.length_cons, List.length_singleton, List.length_nil] at this
      omega

/-- C7 counterexample. The claim "each completed iteration invokes the
user-supplied function handle at most 2 times" is false for `secant`: in
this concrete run one completed iteration (the trace has exactly one row)
invokes `f` four times, at the arguments `0, 1, 2, 2` recorded in the
call log — `f(x0)`, `f(x1)`, then `f(x2)` twice. -/
theorem eval_count_two_refuted :
    (secantLog fSq 0 1 (1 / 1000) 1).1 = .ok (2, 1, [⟨1, 0, 1, 2, 2, 1⟩])
    ∧ (secantLog fSq 0 1 (1 / 1000) 1).2 = [0, 1, 2, 2]
    ∧ ¬ ((secantLog fSq 0 1 (1 / 1000) 1).2.length ≤
        2 * ([⟨1, 0, 1, 2, 2, 1⟩] : List SecantEntry).length) := by
  refine ⟨?_, ?_, ?_⟩ <;> norm_num [secantLog, secantLogLoop, fSq, abs]

/-- C7 (amended). For every method, each completed iteration invokes the
user-supplied function handles at most 4 times — exactly 4 for `secant`,
exactly 2 for `newton_raphson` (`f` and `df` together) and
`modified_secant`, exactly 1 for `regula_falsi` and `fixed_point`, at
most 2 for `bisection` — plus a fixed number of pre-loop evaluations
(2 for the bracket guard of `bisection`; 4 for the guard and the
endpoint values of `regula_falsi`), and no function-evaluation result is
cached across iterations (the per-iteration counts are exact, which a
cache would reduce: e.g. `secant` re-evaluates `f` at the previous
iterate every iteration). -/
theorem eval_count_per_iteration :
    (∀ (f : ℚ → ℚ) (a b tol : ℚ) (m : ℕ) (r e : ℚ) (tr : List BisectEntry)
      (log : List ℚ), bisectionLog f a b tol m = (.ok (r, e, tr), log) →
      log.length ≤ 2 + 2 * tr.length)
    ∧ (∀ (f : ℚ → ℚ) (a b tol : ℚ) (m : ℕ) (r e : ℚ) (tr : List RegulaEntry)
      (log : List ℚ), regulaFalsiLog f a b tol m = (.ok (r, e, tr), log) →
      log.length = 4 + tr.length)
    ∧ (∀ (f : ℚ → ℚ) (x0 x1 tol : ℚ) (m : ℕ) (r e : ℚ) (tr : List SecantEntry)
      (log : List ℚ), secantLog f x0 x1 tol m = (.ok (r, e, tr), log) →
      log.length = 4 * tr.length)
    ∧ (∀ (f df : ℚ → ℚ) (x0 tol : ℚ) (m : ℕ) (r e : ℚ) (tr : List NewtonEntry)
      (log : List ℚ), newtonLog f df x0 tol m = (.ok (r, e, tr), log) →
      log.length = 2 * tr.length)
    ∧ (∀ (g : ℚ → ℚ) (x0 tol : ℚ) (m : ℕ),
      (fixedPointLog g x0 tol m).2.length = (fixedPointLog g x0 tol m).1.2.2.length)
    ∧ (∀ (f : ℚ → ℚ) (x0 delta tol : ℚ) (m : ℕ) (r e : ℚ) (tr : List ModSecEntry)
      (log : List ℚ), modifiedSecantLog f x0 delta tol m = (.ok (r, e, tr), log) →
      log.length = 2 * tr.length) := by
  refine ⟨?_, ?_, ?_, ?_, ?_, ?_⟩
  · intro f a b tol m r e tr log hok
    simp only [bisectionLog] at hok
    split_ifs at hok with hg
    · exact absurd hok (by simp)
    · simp only [Prod.mk.injEq, Except.ok.injEq] at hok
      obtain ⟨h1, h2⟩ := hok
      have := bisectionLogLoop_count f tol m 1 a b [] [a, b]
      rw [h1, h2] at this
      simp only [List.length_nil, List.length_cons] at this
      omega
  · intro f a b tol m r e tr log hok
    simp only [regulaFalsiLog] at hok
    split_ifs at hok with hg
    · exact absurd hok (by simp)
    · simp only [Prod.mk.injEq, Except.ok.injEq] at hok
      obtain ⟨h1, h2⟩ := hok
      have := regulaFalsiLogLoop_count f tol m 1 a b (f a) (f b) a 0 [] [a, b, a, b]
      rw [h1, h2] at this
      simp only [List.length_nil, List.length_cons] at this
      omega
  · intro f x0 x1 tol m r e tr log hok
    have := secantLogLoop_count f tol m 1 x0 x1 0 0 [] [] r e tr log hok
    simp only [List.length_nil] at this
    omega
  · intro f df x0 tol m r e tr log hok
    have := newtonLogLoop_count f df tol m 1 x0 0 [] [] r e tr log hok
    simp only [List.length_nil] at this
    omega
  · intro g x0 tol m
    simp only [fixedPointLog]
    have := fixedPointLogLoop_count g tol m 1 x0 0 [] []
    simp only [List.length_nil] at this
    omega
  · intro f x0 delta tol m r e tr log hok
    have := modifiedSecantLogLoop_count f delta tol m 1 x0 0 [] [] r e tr log hok
    simp only [List.length_nil] at this
    omega

/-- Witness for amended C7: the same concrete secant run has call-log
length `4 = 4 * 1` for its single trace row. -/
theorem eval_count_per_iteration_witness :
    ([0, 1, 2, 2] : List ℚ).length = 4 * ([⟨1, 0, 1, 2, 2, 1⟩] : List SecantEntry).length :=
  eval_count_per_iteration.2.2.1 fSq 0 1 (1 / 1000) 1 2 1 _ _
    (by norm_num [secantLog, secantLogLoop, fSq, abs])

end ZOF
